import Mathlib

/-!
OS abstraction layer of the UWP build (`src/osd/modules/lib/osdlib_uwp.cpp`).

A shallow embedding of the debug-mode allocator (`osd_malloc`, `osd_malloc_array`,
`osd_free` under `MALLOC_DEBUG`), of the runtime environment store (`osd_getenv`,
`osd_setenv`), of the dynamic module loader
(`dynamic_module_win32_impl::get_symbol_address`) and of the bootstrap of the restricted
runtime (`PeGetProcAddressA`, `find_load_exports`).

Conventions of the embedding:

* `size_t`, `uintptr_t`, `ULONG_PTR` and pointers are natural numbers below `2 ^ bits`;
  every arithmetic step of the source is reduced modulo `2 ^ bits`.
* a null pointer is the address `0`; functions of the source that may return `nullptr`
  return `Option`.
* memory is a map from addresses to bytes; a `size_t` is stored little-endian.
* the Win32 calls (`HeapAlloc`, `VirtualAlloc`, `LoadLibrary`, `GetProcAddress`) are
  oracles passed as parameters; calls that release something are reported in the result.
* the structures of the Windows headers (`IMAGE_NT_HEADERS`, `IMAGE_EXPORT_DIRECTORY`) are
  typed views of memory; arrays are indexed by explicit address arithmetic.
* stores of the allocator do not fault in the functions themselves; whether a header store of
  the guarded allocation hits a reserved page without access is stated separately
  (`header_store_faults`).
* the loop of `find_load_exports` takes fuel; a read of an unreadable page faults and the
  fault is swallowed as by the `__except` handler.
-/

namespace OsdLib

/-! ## Compile-time parameters -/

/-- The build target: the width in bits of `size_t`/`uintptr_t`/pointers and the value the
preprocessor picks for `MAX_ALIGNMENT` (`__BIGGEST_ALIGNMENT__`, 32, 16 or `sizeof(int64_t)`). -/
structure Target where
  bits : Nat
  MAX_ALIGNMENT : Nat
deriving DecidableEq, Repr

/-- The macro `PAGE_SIZE`: the presumed size of a page of memory. -/
def PAGE_SIZE : Nat := 4096

/-- The macro `GUARD_ALIGN_START`, defined as 0: allocations are aligned to the end of the page. -/
def GUARD_ALIGN_START : Bool := false

/-- Number of values of a `size_t` / `uintptr_t`. -/
def Target.wordMod (t : Target) : Nat := 2 ^ t.bits

/-- Value of `sizeof(size_t)`. -/
def Target.sizeof_size_t (t : Target) : Nat := t.bits / 8

/-- Value of `sizeof(void *)`. -/
def Target.sizeof_ptr (t : Target) : Nat := t.bits / 8

/-- The targets the source is compiled for: 32 or 64 bit words, `MAX_ALIGNMENT` one of
8, 16, 32. -/
def Target.WellFormed (t : Target) : Prop :=
  (t.bits = 32 ∨ t.bits = 64) ∧
    (t.MAX_ALIGNMENT = 8 ∨ t.MAX_ALIGNMENT = 16 ∨ t.MAX_ALIGNMENT = 32)

instance (t : Target) : Decidable t.WellFormed := by
  unfold Target.WellFormed; infer_instance

/-! ## Machine arithmetic -/

/-- Addition of two machine words. -/
def addW (t : Target) (a b : Nat) : Nat := (a + b) % t.wordMod

/-- Subtraction of two machine words (wraps around below zero). -/
def subW (t : Target) (a b : Nat) : Nat := (a % t.wordMod + t.wordMod - b % t.wordMod) % t.wordMod

/-- The C operator `~` on a machine word. -/
def notW (t : Target) (a : Nat) : Nat := t.wordMod - 1 - a % t.wordMod

/-- The C operator `&` on two machine words. -/
def andW (_t : Target) (a b : Nat) : Nat := a &&& b

/-! ## Byte-addressed memory -/

/-- Memory: the byte held at each address. -/
abbrev Mem := Nat → Nat

/-- A store through a `uint8_t *`: the value is truncated to eight bits. -/
def storeByte (mem : Mem) (addr v : Nat) : Mem :=
  fun a => if a = addr then v % 256 else mem a

/-- A load through a `uint8_t *`. -/
def loadByte (mem : Mem) (addr : Nat) : Nat := mem addr % 256

/-- A store through a `size_t *` of `len` bytes, little-endian. -/
def storeWord (mem : Mem) (addr len v : Nat) : Mem :=
  fun a => if addr ≤ a ∧ a < addr + len then v / 256 ^ (a - addr) % 256 else mem a

/-- A load through a `size_t *` of `len` bytes, little-endian. -/
def loadWord (mem : Mem) (addr : Nat) : Nat → Nat
  | 0 => 0
  | len + 1 => mem addr % 256 + 256 * loadWord mem (addr + 1) len

/-! ## The Win32 memory services -/

/-- The `flAllocationType` argument of `VirtualAlloc`. -/
inductive AllocType where
  | MEM_RESERVE
  | MEM_COMMIT
deriving DecidableEq, Repr

/-- The memory services of the platform: `HeapAlloc(GetProcessHeap(), 0, size)` and
`VirtualAlloc(address, size, type, protect)`; the result `0` is `nullptr`/`NULL`. -/
structure WinMem where
  HeapAlloc : Nat → Nat
  VirtualAlloc : Nat → Nat → AllocType → Nat

/-- What `osd_free` hands back to the platform. -/
inductive Release where
  | HeapFree (block : Nat)
  | VirtualFree (address : Nat)
deriving DecidableEq, Repr

/-! ## The allocator, `MALLOC_DEBUG` defined -/

/-- The two statements `size += MAX_ALIGNMENT + sizeof(size_t) + 2; size &= ~size_t(1);`. -/
def padded_size (t : Target) (size : Nat) : Nat :=
  andW t (addW t size (t.MAX_ALIGNMENT + t.sizeof_size_t + 2)) (notW t 1)

/-- The expression
`(block + sizeof(size_t) + MAX_ALIGNMENT) & ~(uintptr_t(MAX_ALIGNMENT) - 1)`. -/
def payload_ptr (t : Target) (block : Nat) : Nat :=
  andW t (addW t block (t.sizeof_size_t + t.MAX_ALIGNMENT)) (notW t (t.MAX_ALIGNMENT - 1))

/-- The two stores `*reinterpret_cast<size_t *>(block) = word; *(result - 1) = result - block;`. -/
def write_header (t : Target) (mem : Mem) (block result word : Nat) : Mem :=
  storeByte (storeWord mem block t.sizeof_size_t word) (subW t result 1) (subW t result block)

/-- The function `osd_malloc`. -/
def osd_malloc (t : Target) (os : WinMem) (mem : Mem) (size : Nat) : Option Nat × Mem :=
  let size := padded_size t size
  let block := os.HeapAlloc size
  if block = 0 then (none, mem)
  else
    let result := payload_ptr t block
    (some result, write_header t mem block result size)

/-- The expression `((size + sizeof(void *) + PAGE_SIZE - 1) / PAGE_SIZE) * PAGE_SIZE`. -/
def rounded_size (t : Target) (size : Nat) : Nat :=
  ((size + t.sizeof_ptr + PAGE_SIZE - 1) % t.wordMod / PAGE_SIZE * PAGE_SIZE) % t.wordMod

/-- The expression
`GUARD_ALIGN_START ? page_base : (page_base + rounded_size - size)`. -/
def array_block (t : Target) (page_base rounded size : Nat) : Nat :=
  if GUARD_ALIGN_START then page_base else subW t (addW t page_base rounded) size

/-- The function `osd_malloc_array`. -/
def osd_malloc_array (t : Target) (os : WinMem) (mem : Mem) (size : Nat) : Option Nat × Mem :=
  let size := padded_size t size
  let rounded := rounded_size t size
  let page_base := os.VirtualAlloc 0 (addW t rounded (2 * PAGE_SIZE)) AllocType.MEM_RESERVE
  if page_base = 0 then (none, mem)
  else
    let page_base := os.VirtualAlloc (addW t page_base PAGE_SIZE) rounded AllocType.MEM_COMMIT
    if page_base = 0 then (none, mem)
    else
      let block := array_block t page_base rounded size
      let result := payload_ptr t block
      (some result, write_header t mem block result (size ||| 1))

/-- The address the first `VirtualAlloc` call of `osd_malloc_array` returns: the base of the
reservation, where the leading guard page lies. -/
def reserve_base (t : Target) (os : WinMem) (size : Nat) : Nat :=
  os.VirtualAlloc 0 (addW t (rounded_size t (padded_size t size)) (2 * PAGE_SIZE))
    AllocType.MEM_RESERVE

/-- The address the second `VirtualAlloc` call of `osd_malloc_array` returns: the base of the
committed region. -/
def commit_base (t : Target) (os : WinMem) (size : Nat) : Nat :=
  os.VirtualAlloc (addW t (reserve_base t os size) PAGE_SIZE) (rounded_size t (padded_size t size))
    AllocType.MEM_COMMIT

/-- The value of the variable `block` of `osd_malloc_array` for a request of `size` bytes. -/
def array_block_of (t : Target) (os : WinMem) (size : Nat) : Nat :=
  array_block t (commit_base t os size) (rounded_size t (padded_size t size)) (padded_size t size)

/-- The value of the variable `block` of `osd_malloc` for a request of `size` bytes. -/
def heap_block_of (t : Target) (os : WinMem) (size : Nat) : Nat :=
  os.HeapAlloc (padded_size t size)

/-- The function `osd_free`: the release it performs. -/
def osd_free (t : Target) (mem : Mem) (ptr : Nat) : Release :=
  let offset := loadByte mem (subW t ptr 1)
  let block := subW t ptr offset
  let size := loadWord mem block t.sizeof_size_t
  if size &&& 1 = 0 then Release.HeapFree block
  else
    let page_base := andW t block (notW t (PAGE_SIZE - 1))
    Release.VirtualFree (subW t page_base PAGE_SIZE)

/-- The 64-bit SSE build: `MAX_ALIGNMENT` is 16. -/
def x64 : Target := ⟨64, 16⟩

/-- A platform whose heap hands out `heapBlock` and whose reservations start at `reserve`;
a commit returns the address it was given. -/
def fixedOS (heapBlock reserve : Nat) : WinMem where
  HeapAlloc := fun _ => heapBlock
  VirtualAlloc := fun addr _ ty =>
    match ty with
    | AllocType.MEM_RESERVE => reserve
    | AllocType.MEM_COMMIT => addr

/-- Memory holding zero everywhere. -/
def zeroMem : Mem := fun _ => 0

/-! ## The runtime environment store -/

/-- The C strings of the process: the characters, up to the terminating NUL, that a
`const char *` with a given address points to. -/
abbrev Strings := Nat → String

/-- The C library function `tolower` in the "C" locale, as used by `stricmp`. -/
def tolower (c : Char) : Char :=
  if 65 ≤ c.toNat ∧ c.toNat ≤ 90 then Char.ofNat (c.toNat + 32) else c

/-- The C library function `stricmp` on the characters of two C strings: the difference of
the first two characters that differ after `tolower`, the end of a string counting as NUL. -/
def stricmpChars : List Char → List Char → Int
  | [], [] => 0
  | [], b :: _ => 0 - ((tolower b).toNat : Int)
  | a :: _, [] => ((tolower a).toNat : Int)
  | a :: as, b :: bs =>
    if tolower a = tolower b then stricmpChars as bs
    else ((tolower a).toNat : Int) - ((tolower b).toNat : Int)

/-- The C library function `stricmp`. -/
def stricmp (a b : String) : Int := stricmpChars a.data b.data

/-- The variable `g_runtime_environment`, a `std::map<const char *, std::unique_ptr<char>>`:
the entries in increasing order of the key, which is the address of the name; the mapped
buffer is given by the characters it holds. -/
abbrev Environment := List (Nat × String)

/-- The assignment `map[key] = buf` of `std::map`: the entry with an equal key is assigned,
otherwise a new entry is inserted at its place in the order of the keys. -/
def map_assign : Environment → Nat → String → Environment
  | [], key, buf => [(key, buf)]
  | (k, b) :: rest, key, buf =>
    if key < k then (key, buf) :: (k, b) :: rest
    else if key = k then (key, buf) :: rest
    else (k, b) :: map_assign rest key buf

/-- The function `osd_getenv`: the characters of the buffer it returns, `none` for `nullptr`. -/
def osd_getenv (strs : Strings) : Environment → Nat → Option String
  | [], _ => none
  | (first, second) :: rest, name =>
    if stricmp (strs first) (strs name) = 0 then some second
    else osd_getenv strs rest name

/-- The function `osd_setenv`: its return value and the store after the call. The buffer is
taken to hold everything `sprintf` writes with the format `%s=%s`. -/
def osd_setenv (strs : Strings) (env : Environment) (name value : Nat) (overwrite : Int) :
    Int × Environment :=
  if overwrite = 0 ∧ osd_getenv strs env name ≠ none then (0, env)
  else
    let buf := strs name ++ "=" ++ strs value
    (0, map_assign env name buf)

/-- The entries of the store whose name equals `name` ignoring ASCII case. -/
def matching_entries (strs : Strings) (env : Environment) (name : Nat) : Environment :=
  env.filter (fun e => stricmp (strs e.1) (strs name) = 0)

/-- A string table for the examples: `Foo` at 0x1000, `FOO` at 0x2000, the values `w` at
0x3000 and `x` at 0x4000, the empty string elsewhere. -/
def sampleStrings : Strings := fun a =>
  if a = 0x1000 then "Foo"
  else if a = 0x2000 then "FOO"
  else if a = 0x3000 then "w"
  else if a = 0x4000 then "x"
  else ""

/-! ## The dynamic module loader -/

/-- The loader services of the platform: `load_library(filename)` and
`GetProcAddress(module, symbol)`; `none` is `nullptr`. -/
structure WinLoader where
  load_library : String → Option Nat
  GetProcAddress : Nat → String → Option Nat

/-- A call made to the platform loader. -/
inductive LoaderCall where
  | load (library : String)
  | resolve (module : Nat) (symbol : String)
  | free (module : Nat)
deriving DecidableEq, Repr

/-- The data members of the class `dynamic_module_win32_impl`. -/
structure dynamic_module_win32_impl where
  m_libraries : List String
  m_module : Option Nat
deriving DecidableEq, Repr

/-- Outcome of a member function call: the value returned, the object afterwards and the
platform calls made, in order. -/
structure CallResult where
  function : Option Nat
  self : dynamic_module_win32_impl
  calls : List LoaderCall
deriving DecidableEq, Repr

/-- The loop `for (auto const &library : m_libraries)` of `get_symbol_address` over the
libraries still to be visited, followed by the final `return nullptr`. -/
def get_symbol_address_loop (os : WinLoader) (self : dynamic_module_win32_impl)
    (symbol : String) : List String → CallResult
  | [] => ⟨none, self, []⟩
  | library :: rest =>
    match os.load_library library with
    | some module =>
      match os.GetProcAddress module symbol with
      | some function =>
        ⟨some function, { self with m_module := some module },
          [LoaderCall.load library, LoaderCall.resolve module symbol]⟩
      | none =>
        let r := get_symbol_address_loop os self symbol rest
        ⟨r.function, r.self,
          LoaderCall.load library :: LoaderCall.resolve module symbol :: LoaderCall.free module ::
            r.calls⟩
    | none =>
      let r := get_symbol_address_loop os self symbol rest
      ⟨r.function, r.self, LoaderCall.load library :: r.calls⟩

/-- The member function `dynamic_module_win32_impl::get_symbol_address`. -/
def get_symbol_address (os : WinLoader) (self : dynamic_module_win32_impl)
    (symbol : String) : CallResult :=
  match self.m_module with
  | some module => ⟨os.GetProcAddress module symbol, self, [LoaderCall.resolve module symbol]⟩
  | none => get_symbol_address_loop os self symbol self.m_libraries

/-- A sequence of `get_symbol_address` calls on one object: the values returned, the object
after the last call and all platform calls made. -/
def get_symbol_addresses (os : WinLoader) (self : dynamic_module_win32_impl) :
    List String → List (Option Nat) × dynamic_module_win32_impl × List LoaderCall
  | [] => ([], self, [])
  | symbol :: rest =>
    let r := get_symbol_address os self symbol
    let rs := get_symbol_addresses os r.self rest
    (r.function :: rs.1, rs.2.1, r.calls ++ rs.2.2)

/-- A platform for the examples: `real_a.lib` loads as module 1 and exports `sym` and
`only_a`, `real_b.lib` loads as module 2 and exports `sym`; nothing else loads. -/
def sampleLoader : WinLoader where
  load_library := fun name =>
    if name = "real_a.lib" then some 1 else if name = "real_b.lib" then some 2 else none
  GetProcAddress := fun module symbol =>
    if module = 1 ∧ symbol = "sym" then some 100
    else if module = 1 ∧ symbol = "only_a" then some 101
    else if module = 2 ∧ symbol = "sym" then some 200
    else none

/-- The size passed to the first `VirtualAlloc` call of `osd_malloc_array`:
`rounded_size + 2 * PAGE_SIZE`. -/
def reserve_size (t : Target) (size : Nat) : Nat :=
  addW t (rounded_size t (padded_size t size)) (2 * PAGE_SIZE)

/-- The modules a sequence of platform calls loaded successfully, in order. -/
def loaded_modules (os : WinLoader) : List LoaderCall → List Nat
  | [] => []
  | LoaderCall.load library :: rest =>
    match os.load_library library with
    | some module => module :: loaded_modules os rest
    | none => loaded_modules os rest
  | LoaderCall.resolve _ _ :: rest => loaded_modules os rest
  | LoaderCall.free _ :: rest => loaded_modules os rest

/-- The modules a sequence of platform calls passed to `FreeLibrary`, in order. -/
def freed_modules : List LoaderCall → List Nat
  | [] => []
  | LoaderCall.free module :: rest => module :: freed_modules rest
  | LoaderCall.load _ :: rest => freed_modules rest
  | LoaderCall.resolve _ _ :: rest => freed_modules rest

/-- A check of the order of a sequence of platform calls, given the module that is loaded and
not yet released (`held`): a library is loaded only while no module is held, a symbol is
resolved only in the held module, and `FreeLibrary` is called only on the held module. The
result is the module held at the end, or `none` when the order is violated. -/
def held_module (os : WinLoader) : Option Nat → List LoaderCall → Option (Option Nat)
  | held, [] => some held
  | none, LoaderCall.load library :: rest => held_module os (os.load_library library) rest
  | some _, LoaderCall.load _ :: _ => none
  | some held, LoaderCall.resolve module _ :: rest =>
    if module = held then held_module os (some held) rest else none
  | none, LoaderCall.resolve _ _ :: _ => none
  | some held, LoaderCall.free module :: rest =>
    if module = held then held_module os none rest else none
  | none, LoaderCall.free _ :: _ => none

/-! ## The PE export lookup of the restricted runtime -/

/-- A value converted to `DWORD`. -/
def DWORD (x : Nat) : Nat := x % 4294967296

/-- A value converted to `WORD`. -/
def WORD (x : Nat) : Nat := x % 65536

/-- The structure `IMAGE_DATA_DIRECTORY`. -/
structure IMAGE_DATA_DIRECTORY where
  VirtualAddress : Nat
  Size : Nat
deriving DecidableEq, Repr

/-- The fields of `IMAGE_NT_HEADERS` (all in its `OptionalHeader`) that the export lookup
reads. -/
structure IMAGE_NT_HEADERS where
  NumberOfRvaAndSizes : Nat
  SizeOfHeaders : Nat
  DataDirectory : Nat → IMAGE_DATA_DIRECTORY

/-- The fields of `IMAGE_EXPORT_DIRECTORY` that the export lookup reads. -/
structure IMAGE_EXPORT_DIRECTORY where
  Base : Nat
  NumberOfFunctions : Nat
  NumberOfNames : Nat
  AddressOfFunctions : Nat
  AddressOfNames : Nat
  AddressOfNameOrdinals : Nat
deriving DecidableEq, Repr

/-- Memory as the export lookup reads it: for each address the field `e_lfanew` of a DOS header
there (as the pointer offset it is added as), the NT headers there, the export directory there,
the `DWORD` there, the `WORD` there and the C string there; `RtlImageRvaToVa` stands for the
function of that name, which the lookup never reaches. -/
structure ImageMem where
  e_lfanew : Nat → Nat
  nt_headers : Nat → IMAGE_NT_HEADERS
  export_directory : Nat → IMAGE_EXPORT_DIRECTORY
  dword : Nat → Nat
  word : Nat → Nat
  cstring : Nat → String
  RtlImageRvaToVa : Nat → Nat → Nat → Nat

/-- The constant `IMAGE_DIRECTORY_ENTRY_EXPORT`. -/
def IMAGE_DIRECTORY_ENTRY_EXPORT : Nat := 0

/-- The C library function `strcmp` on the characters of two C strings: zero when they are
equal, otherwise negative or positive as the first is smaller or greater. -/
def strcmpChars : List Char → List Char → Int
  | [], [] => 0
  | [], _ :: _ => -1
  | _ :: _, [] => 1
  | a :: as, b :: bs =>
    if a = b then strcmpChars as bs else (a.toNat : Int) - (b.toNat : Int)

/-- The C library function `strcmp`. -/
def strcmp (a b : String) : Int := strcmpChars a.data b.data

/-- The function `ImageNtHeader`: the address of the NT headers. -/
def ImageNtHeader (t : Target) (mem : ImageMem) (Base : Nat) : Nat :=
  addW t Base (mem.e_lfanew Base)

/-- The function `ImageDirectoryEntryToDataEx` with `section` null: the pointer returned
(`0` for `NULL`) and the value left in `*size`. -/
def ImageDirectoryEntryToDataEx (t : Target) (mem : ImageMem) (base : Nat) (image : Bool)
    (dir : Nat) : Nat × Nat :=
  let nt := ImageNtHeader t mem base
  if nt = 0 then (0, 0)
  else if dir ≥ (mem.nt_headers nt).NumberOfRvaAndSizes then (0, 0)
  else
    let addr := ((mem.nt_headers nt).DataDirectory dir).VirtualAddress
    if addr = 0 then (0, 0)
    else
      let size := ((mem.nt_headers nt).DataDirectory dir).Size
      if image = true ∨ addr < (mem.nt_headers nt).SizeOfHeaders then (addW t base addr, size)
      else (mem.RtlImageRvaToVa nt base addr, size)

/-- The address of element `index` of an array of elements of `width` bytes. -/
def element (t : Target) (array width index : Nat) : Nat := addW t array (width * index)

/-- The value `Functions[index] + (DWORD_PTR)Base` of `PeGetProcAddressA`. -/
def export_address (t : Target) (mem : ImageMem) (Base : Nat) (Exp : IMAGE_EXPORT_DIRECTORY)
    (index : Nat) : Nat :=
  addW t (DWORD (mem.dword (element t (addW t Exp.AddressOfFunctions Base) 4 index))) Base

/-- The value `Func` of `PeGetProcAddressA` for the index `i`: `Names[i] + (DWORD_PTR)Base`. -/
def export_name (t : Target) (mem : ImageMem) (Base : Nat) (Exp : IMAGE_EXPORT_DIRECTORY)
    (i : Nat) : Nat :=
  addW t (DWORD (mem.dword (element t (addW t Exp.AddressOfNames Base) 4 i))) Base

/-- The value `Ordinals[i]` of `PeGetProcAddressA`. -/
def export_ordinal (t : Target) (mem : ImageMem) (Base : Nat) (Exp : IMAGE_EXPORT_DIRECTORY)
    (i : Nat) : Nat :=
  WORD (mem.word (element t (addW t Exp.AddressOfNameOrdinals Base) 2 i))

/-- The loop `for (DWORD i = 0; i<Exp->NumberOfNames && Ret == 0; i++)` of `PeGetProcAddressA`,
entered with `Ret == 0` at index `i` with `count` names left: the value of `Ret` after it. -/
def PeNameScan (t : Target) (mem : ImageMem) (Base : Nat) (Exp : IMAGE_EXPORT_DIRECTORY)
    (Name : Nat) : Nat → Nat → Nat
  | 0, _ => 0
  | count + 1, i =>
    let Func := export_name t mem Base Exp i
    if Func ≠ 0 ∧ strcmp (mem.cstring Func) (mem.cstring Name) = 0 then
      let Ret := export_address t mem Base Exp (export_ordinal t mem Base Exp i)
      if Ret = 0 then PeNameScan t mem Base Exp Name count (i + 1) else Ret
    else PeNameScan t mem Base Exp Name count (i + 1)

/-- The value of `Ret` in `PeGetProcAddressA` before the forwarder check, for the export
directory `Exp`. -/
def PeLookup (t : Target) (mem : ImageMem) (Base : Nat) (Exp : IMAGE_EXPORT_DIRECTORY)
    (Name : Nat) : Nat :=
  if Name < 65536 then
    if subW t Name Exp.Base < Exp.NumberOfFunctions then
      export_address t mem Base Exp (subW t Name Exp.Base)
    else 0
  else PeNameScan t mem Base Exp Name Exp.NumberOfNames 0

/-- The statements of `PeGetProcAddressA` from `if (Ret)` on: the forwarder check on the
resolved address; `none` is the return value 0. -/
def PeForwarderCheck (t : Target) (mem : ImageMem) (Base Ret : Nat) : Option Nat :=
  if Ret ≠ 0 then
    let NT := mem.nt_headers (ImageNtHeader t mem Base)
    let ExpStart := DWORD ((NT.DataDirectory IMAGE_DIRECTORY_ENTRY_EXPORT).VirtualAddress +
      DWORD Base)
    let ExpSize := DWORD (NT.DataDirectory IMAGE_DIRECTORY_ENTRY_EXPORT).Size
    if DWORD Ret ≥ ExpStart ∧ DWORD Ret ≤ DWORD (ExpStart + ExpSize) then none
    else some Ret
  else none

/-- The function `PeGetProcAddressA`; `none` is the return value 0. -/
def PeGetProcAddressA (t : Target) (mem : ImageMem) (Base Name : Nat) : Option Nat :=
  let Exp := (ImageDirectoryEntryToDataEx t mem Base true IMAGE_DIRECTORY_ENTRY_EXPORT).1
  if Exp = 0 ∨ (mem.export_directory Exp).NumberOfFunctions = 0 then none
  else PeForwarderCheck t mem Base (PeLookup t mem Base (mem.export_directory Exp) Name)

/-! ## The bootstrap scan of the restricted runtime -/

/-- Memory as the scan probes it: whether the page with a given number can be read, and the
byte at each address. -/
structure PageMem where
  readable : Nat → Bool
  byte : Nat → Nat

/-- A read of one `char`: `none` when the access faults. -/
def PageMem.read (pages : PageMem) (address : Nat) : Option Nat :=
  if pages.readable (address / PAGE_SIZE) then some (pages.byte address % 256) else none

/-- The body of the `__try` block of `find_load_exports`: `true` when the `break` is reached;
a fault is swallowed by the handler, and `Tmp[1]` is read only if `Tmp[0]` is `M`. -/
def probe_MZ (t : Target) (pages : PageMem) (Tmp : Nat) : Bool :=
  match pages.read Tmp with
  | none => false
  | some c0 =>
    if c0 = 77 then
      match pages.read (addW t Tmp 1) with
      | none => false
      | some c1 => c1 = 90
    else false

/-- The loop `while (Tmp)` of `find_load_exports`, run for at most `fuel` tests of its
condition: the value of `Tmp` after the loop, `none` when the fuel runs out. -/
def find_load_exports_scan (t : Target) (pages : PageMem) : Nat → Nat → Option Nat
  | 0, _ => none
  | fuel + 1, Tmp =>
    if Tmp = 0 then some 0
    else if probe_MZ t pages Tmp then some Tmp
    else find_load_exports_scan t pages fuel (subW t Tmp 0x1000)

/-- The variables `g_LoadLibraryA` and `g_GetProcAddressA`. -/
structure LoaderExports where
  g_LoadLibraryA : Nat
  g_GetProcAddressA : Nat
deriving DecidableEq, Repr

/-- The function `find_load_exports`, from the address of `GetTickCount64` and the addresses
of the two string literals: the two cached pointers after the call, `none` when the fuel runs
out. -/
def find_load_exports (t : Target) (pages : PageMem) (mem : ImageMem)
    (GetTickCount64 lit_LoadLibraryA lit_GetProcAddress : Nat) (g : LoaderExports)
    (fuel : Nat) : Option LoaderExports :=
  let Tmp := andW t (notW t 0xFFF) GetTickCount64
  match find_load_exports_scan t pages fuel Tmp with
  | none => none
  | some Tmp =>
    if Tmp = 0 then some g
    else
      some ⟨(PeGetProcAddressA t mem Tmp lit_LoadLibraryA).getD 0,
        (PeGetProcAddressA t mem Tmp lit_GetProcAddress).getD 0⟩

/-- The 32-bit build: `MAX_ALIGNMENT` is `sizeof(int64_t)`. -/
def x86 : Target := ⟨32, 8⟩

/-- An image for the examples, loaded at 0x400000: NT headers at 0x400080, export directory at
0x402000 of size 0x100 with ordinal base 1 and three functions at the RVAs 0x1000, 0x2100 (the
first byte after the export directory) and 0x2080 (inside the export directory); the names
`GetProcAddress` (ordinal index 0) and `LoadLibraryA` (ordinal index 1). The strings asked for
are at 0x500000 (`GetProcAddress`), 0x500010 (`LoadLibraryA`) and 0x500020 (`Missing`). -/
def sampleImage : ImageMem where
  e_lfanew := fun a => if a = 0x400000 then 0x80 else 0
  nt_headers := fun _ =>
    { NumberOfRvaAndSizes := 16, SizeOfHeaders := 0x400,
      DataDirectory := fun d => if d = 0 then ⟨0x2000, 0x100⟩ else ⟨0, 0⟩ }
  export_directory := fun _ =>
    { Base := 1, NumberOfFunctions := 3, NumberOfNames := 2, AddressOfFunctions := 0x2028,
      AddressOfNames := 0x2040, AddressOfNameOrdinals := 0x2050 }
  dword := fun a =>
    if a = 0x402028 then 0x1000
    else if a = 0x40202c then 0x2100
    else if a = 0x402030 then 0x2080
    else if a = 0x402040 then 0x2060
    else if a = 0x402044 then 0x2070
    else 0
  word := fun a => if a = 0x402052 then 1 else 0
  cstring := fun a =>
    if a = 0x402060 ∨ a = 0x500000 then "GetProcAddress"
    else if a = 0x402070 ∨ a = 0x500010 then "LoadLibraryA"
    else if a = 0x500020 then "Missing"
    else ""
  RtlImageRvaToVa := fun _ _ _ => 0

/-- Pages for the examples: the pages 0x400 and 0x401 can be read, the image at 0x400000 starts
with `MZ`, everything else is zero. -/
def samplePages : PageMem where
  readable := fun n => n = 0x400 ∨ n = 0x401
  byte := fun a => if a = 0x400000 then 77 else if a = 0x400001 then 90 else 0

/-- The libraries a sequence of platform calls tried to load, in order. -/
def libraries_tried : List LoaderCall → List String
  | [] => []
  | LoaderCall.load library :: rest => library :: libraries_tried rest
  | LoaderCall.resolve _ _ :: rest => libraries_tried rest
  | LoaderCall.free _ :: rest => libraries_tried rest

/-- The pointer `Exp` of `PeGetProcAddressA`: the export directory of the image at `Base`,
`0` when the image has none. -/
def PeExportDirectory (t : Target) (mem : ImageMem) (Base : Nat) : Nat :=
  (ImageDirectoryEntryToDataEx t mem Base true IMAGE_DIRECTORY_ENTRY_EXPORT).1

/-- The exported name with index `i` is present and byte-for-byte equal to the string at
`Name`. -/
def name_matches (t : Target) (mem : ImageMem) (Base : Nat) (Exp : IMAGE_EXPORT_DIRECTORY)
    (Name i : Nat) : Prop :=
  export_name t mem Base Exp i ≠ 0 ∧
    mem.cstring (export_name t mem Base Exp i) = mem.cstring Name

instance (t : Target) (mem : ImageMem) (Base : Nat) (Exp : IMAGE_EXPORT_DIRECTORY)
    (Name i : Nat) : Decidable (name_matches t mem Base Exp Name i) := by
  unfold name_matches; infer_instance

/-- The first two bytes at `address` can be read and are the characters `M` and `Z`. -/
def starts_with_MZ (pages : PageMem) (address : Nat) : Prop :=
  pages.readable (address / PAGE_SIZE) = true ∧ pages.byte address % 256 = 77 ∧
    pages.readable ((address + 1) / PAGE_SIZE) = true ∧ pages.byte (address + 1) % 256 = 90

instance (pages : PageMem) (address : Nat) : Decidable (starts_with_MZ pages address) := by
  unfold starts_with_MZ; infer_instance

/-! ## Page protection of the guarded allocation -/

/-- An address that the two `VirtualAlloc` calls of `osd_malloc_array` leave without access: it
lies in the reservation `[reserve_base, reserve_base + reserve_size)`, reserved with
`PAGE_NOACCESS`, and not in the region `[commit_base, commit_base + rounded_size)` committed
with `PAGE_READWRITE`. -/
def no_access (t : Target) (os : WinMem) (n address : Nat) : Prop :=
  reserve_base t os n ≤ address ∧ address < reserve_base t os n + reserve_size t n ∧
    ¬ (commit_base t os n ≤ address ∧
      address < commit_base t os n + rounded_size t (padded_size t n))

instance (t : Target) (os : WinMem) (n address : Nat) : Decidable (no_access t os n address) := by
  unfold no_access; infer_instance

/-- One of the two header stores of `osd_malloc_array`, the size word at `block` and the
back-offset byte at `result - 1`, writes to an address without access: the store raises an
access violation and the call does not return. -/
def header_store_faults (t : Target) (os : WinMem) (n : Nat) : Prop :=
  (∃ i, i < t.sizeof_size_t ∧ no_access t os n (array_block_of t os n + i)) ∨
    no_access t os n (subW t (payload_ptr t (array_block_of t os n)) 1)

instance (t : Target) (os : WinMem) (n : Nat) : Decidable (header_store_faults t os n) := by
  unfold header_store_faults; infer_instance

/-- The behaviour of `VirtualAlloc` that the guarded allocation relies on, for the calls made
for a request of `n` bytes: the reservation lies in the address space; a commit of zero bytes
fails; a commit that succeeds returns the address it was given, `reserve_base + PAGE_SIZE`,
and lies inside the reservation. -/
def VirtualAllocContract (t : Target) (os : WinMem) (n : Nat) : Prop :=
  reserve_base t os n + reserve_size t n ≤ t.wordMod ∧
    (rounded_size t (padded_size t n) = 0 → commit_base t os n = 0) ∧
    (commit_base t os n ≠ 0 →
      commit_base t os n = reserve_base t os n + PAGE_SIZE ∧
      commit_base t os n + rounded_size t (padded_size t n) ≤
        reserve_base t os n + reserve_size t n)

instance (t : Target) (os : WinMem) (n : Nat) : Decidable (VirtualAllocContract t os n) := by
  unfold VirtualAllocContract; infer_instance

/-! ## Arithmetic facts about the machine operations -/

theorem and_not_low (w k x : Nat) (hx : x < 2 ^ w) (hk : k ≤ w) :
    x &&& (2 ^ w - 1 - (2 ^ k - 1) % 2 ^ w) = x - x % 2 ^ k := by
  have hlt : 2 ^ k - 1 < 2 ^ w := by
    have : 2 ^ k ≤ 2 ^ w := Nat.pow_le_pow_right (by norm_num) hk
    have : 0 < 2 ^ k := Nat.pos_pow_of_pos k (by norm_num)
    omega
  rw [Nat.mod_eq_of_lt hlt]
  have e : 2 ^ w - 1 - (2 ^ k - 1) = 2 ^ w - (2 ^ k - 1 + 1) := by omega
  rw [e]
  have e2 : x - x % 2 ^ k = (x >>> k) <<< k := by
    rw [Nat.shiftLeft_eq, Nat.shiftRight_eq_div_pow]
    have := Nat.div_add_mod x (2 ^ k)
    have h2 : 2 ^ k * (x / 2 ^ k) = x / 2 ^ k * 2 ^ k := Nat.mul_comm _ _
    omega
  rw [e2]
  apply Nat.eq_of_testBit_eq
  intro i
  rw [Nat.testBit_and, Nat.testBit_two_pow_sub_succ hlt, Nat.testBit_two_pow_sub_one,
    Nat.testBit_shiftLeft, Nat.testBit_shiftRight]
  by_cases hik : k ≤ i
  · have : k + (i - k) = i := by omega
    rw [this]
    by_cases hiw : i < w
    · simp [hik, hiw]
    · have : x.testBit i = false := by
        apply Nat.testBit_lt_two_pow
        exact lt_of_lt_of_le hx (Nat.pow_le_pow_right (by norm_num) (by omega))
      simp [this]
  · simp [hik]
    intro _ _
    omega

theorem andW_notW (t : Target) (k x : Nat) (hk : k ≤ t.bits) (hx : x < t.wordMod) :
    andW t x (notW t (2 ^ k - 1)) = x - x % 2 ^ k :=
  and_not_low t.bits k x hx hk

theorem wordMod_pos (t : Target) : 0 < t.wordMod := Nat.pos_pow_of_pos _ (by norm_num)

theorem addW_lt (t : Target) (a b : Nat) : addW t a b < t.wordMod :=
  Nat.mod_lt _ (wordMod_pos t)

theorem subW_lt (t : Target) (a b : Nat) : subW t a b < t.wordMod :=
  Nat.mod_lt _ (wordMod_pos t)

/-- On a well-formed target `MAX_ALIGNMENT` is `2 ^ k` for some `3 ≤ k ≤ 5`. -/
theorem WellFormed.align_pow (t : Target) (hw : t.WellFormed) :
    ∃ k, t.MAX_ALIGNMENT = 2 ^ k ∧ 3 ≤ k ∧ k ≤ 5 ∧ k ≤ t.bits := by
  obtain ⟨hb, ha⟩ := hw
  have h32 : 32 ≤ t.bits := by omega
  rcases ha with ha | ha | ha
  · exact ⟨3, by rw [ha]; norm_num, by omega, by omega, by omega⟩
  · exact ⟨4, by rw [ha]; norm_num, by omega, by omega, by omega⟩
  · exact ⟨5, by rw [ha]; norm_num, by omega, by omega, by omega⟩

/-- The payload pointer is the wrapped sum rounded down to a multiple of `MAX_ALIGNMENT`. -/
theorem payload_ptr_eq (t : Target) (hw : t.WellFormed) (block : Nat) :
    payload_ptr t block =
      addW t block (t.sizeof_size_t + t.MAX_ALIGNMENT) -
        addW t block (t.sizeof_size_t + t.MAX_ALIGNMENT) % t.MAX_ALIGNMENT := by
  obtain ⟨k, hk, _, _, hkb⟩ := WellFormed.align_pow t hw
  unfold payload_ptr
  rw [hk]
  exact andW_notW t k _ hkb (addW_lt t _ _)

/-- The padded size is the wrapped sum with its low bit cleared. -/
theorem padded_size_eq (t : Target) (hw : t.WellFormed) (size : Nat) :
    padded_size t size =
      addW t size (t.MAX_ALIGNMENT + t.sizeof_size_t + 2) -
        addW t size (t.MAX_ALIGNMENT + t.sizeof_size_t + 2) % 2 := by
  have h1 : 1 ≤ t.bits := by
    obtain ⟨hb, _⟩ := hw
    omega
  unfold padded_size
  have := andW_notW t 1 (addW t size (t.MAX_ALIGNMENT + t.sizeof_size_t + 2)) h1 (addW_lt t _ _)
  simpa using this

/-- Clearing the low twelve bits of a machine word. -/
theorem page_mask_eq (t : Target) (hw : t.WellFormed) (x : Nat) (hx : x < t.wordMod) :
    andW t x (notW t (PAGE_SIZE - 1)) = x - x % PAGE_SIZE := by
  have h12 : 12 ≤ t.bits := by
    obtain ⟨hb, _⟩ := hw
    omega
  have := andW_notW t 12 x h12 hx
  simpa [PAGE_SIZE] using this

/-! ## Facts about the header written by the allocator -/

theorem loadWord_congr (m1 m2 : Mem) (len addr : Nat)
    (h : ∀ i, i < len → m1 (addr + i) = m2 (addr + i)) :
    loadWord m1 addr len = loadWord m2 addr len := by
  induction len generalizing addr with
  | zero => rfl
  | succ n ih =>
    simp only [loadWord]
    have h0 := h 0 (Nat.succ_pos n)
    simp only [Nat.add_zero] at h0
    rw [h0, ih (addr + 1)]
    intro i hi
    have := h (i + 1) (Nat.succ_lt_succ hi)
    simpa [Nat.add_assoc, Nat.add_comm 1 i] using this

theorem loadWord_digits (m : Mem) (v len addr j : Nat)
    (h : ∀ i, i < len → m (addr + i) = v / 256 ^ (j + i) % 256) :
    loadWord m addr len = v / 256 ^ j % 256 ^ len := by
  induction len generalizing addr j with
  | zero => simp [loadWord, Nat.mod_one]
  | succ n ih =>
    simp only [loadWord]
    have h0 := h 0 (Nat.succ_pos n)
    simp only [Nat.add_zero] at h0
    rw [h0, ih (addr + 1) (j + 1)]
    · rw [Nat.mod_mod, Nat.pow_succ 256 j, ← Nat.div_div_eq_div_mul, Nat.pow_succ 256 n,
        Nat.mul_comm (256 ^ n) 256, Nat.mod_mul]
    · intro i hi
      have := h (i + 1) (Nat.succ_lt_succ hi)
      simpa [Nat.add_assoc, Nat.add_comm 1 i] using this

theorem loadWord_storeWord (mem : Mem) (addr len v : Nat) :
    loadWord (storeWord mem addr len v) addr len = v % 256 ^ len := by
  have := loadWord_digits (storeWord mem addr len v) v len addr 0 (by
    intro i hi
    simp [storeWord, hi])
  simpa using this

/-- On a well-formed target a machine word has `sizeof(size_t)` bytes of eight bits. -/
theorem WellFormed.wordMod_eq (t : Target) (hw : t.WellFormed) :
    t.wordMod = 256 ^ t.sizeof_size_t := by
  obtain ⟨hb, _⟩ := hw
  unfold Target.wordMod Target.sizeof_size_t
  rcases hb with hb | hb <;> rw [hb] <;> norm_num

/-- The header written by `osd_malloc` and `osd_malloc_array` for a raw block whose first
`sizeof(size_t) + MAX_ALIGNMENT` bytes lie in the address space. -/
theorem write_header_spec (t : Target) (hw : t.WellFormed) (mem : Mem) (block word : Nat)
    (hb : block + t.sizeof_size_t + t.MAX_ALIGNMENT < t.wordMod) :
    block + t.sizeof_size_t < payload_ptr t block ∧
    payload_ptr t block ≤ block + t.sizeof_size_t + t.MAX_ALIGNMENT ∧
    subW t (payload_ptr t block) 1 = payload_ptr t block - 1 ∧
    loadByte (write_header t mem block (payload_ptr t block) word) (payload_ptr t block - 1) =
      payload_ptr t block - block ∧
    subW t (payload_ptr t block) (payload_ptr t block - block) = block ∧
    loadWord (write_header t mem block (payload_ptr t block) word) block t.sizeof_size_t =
      word % t.wordMod := by
  have hp := payload_ptr_eq t hw block
  have hwm := WellFormed.wordMod_eq t hw
  have hy : addW t block (t.sizeof_size_t + t.MAX_ALIGNMENT) =
      block + t.sizeof_size_t + t.MAX_ALIGNMENT := by
    unfold addW
    rw [← Nat.add_assoc]
    exact Nat.mod_eq_of_lt hb
  rw [hy] at hp
  generalize payload_ptr t block = p at hp ⊢
  have hA : 8 ≤ t.MAX_ALIGNMENT ∧ t.MAX_ALIGNMENT ≤ 32 := by
    obtain ⟨_, ha⟩ := hw
    omega
  have hS : 4 ≤ t.sizeof_size_t ∧ t.sizeof_size_t ≤ 8 := by
    obtain ⟨hbits, _⟩ := hw
    unfold Target.sizeof_size_t
    omega
  have hmodlt := Nat.mod_lt (block + t.sizeof_size_t + t.MAX_ALIGNMENT)
    (show 0 < t.MAX_ALIGNMENT by omega)
  have hlo : block + t.sizeof_size_t < p := by omega
  have hhi : p ≤ block + t.sizeof_size_t + t.MAX_ALIGNMENT := by omega
  have hbig : 256 ≤ t.wordMod := by
    rw [hwm]
    calc 256 = 256 ^ 1 := by norm_num
      _ ≤ 256 ^ t.sizeof_size_t := Nat.pow_le_pow_right (by norm_num) (by omega)
  have hs1 : subW t p 1 = p - 1 := by
    unfold subW
    rw [Nat.mod_eq_of_lt (show p < t.wordMod by omega),
      Nat.mod_eq_of_lt (show 1 < t.wordMod by omega)]
    have : p + t.wordMod - 1 = (p - 1) + t.wordMod := by omega
    rw [this, Nat.add_mod_right]
    exact Nat.mod_eq_of_lt (by omega)
  have hs2 : subW t p block = p - block := by
    unfold subW
    rw [Nat.mod_eq_of_lt (show p < t.wordMod by omega),
      Nat.mod_eq_of_lt (show block < t.wordMod by omega)]
    have : p + t.wordMod - block = (p - block) + t.wordMod := by omega
    rw [this, Nat.add_mod_right]
    exact Nat.mod_eq_of_lt (by omega)
  have hs3 : subW t p (p - block) = block := by
    unfold subW
    rw [Nat.mod_eq_of_lt (show p < t.wordMod by omega),
      Nat.mod_eq_of_lt (show p - block < t.wordMod by omega)]
    have : p + t.wordMod - (p - block) = block + t.wordMod := by omega
    rw [this, Nat.add_mod_right]
    exact Nat.mod_eq_of_lt (by omega)
  refine ⟨hlo, hhi, hs1, ?_, hs3, ?_⟩
  · unfold write_header loadByte storeByte
    rw [hs1, hs2]
    simp only [if_true]
    rw [Nat.mod_mod]
    exact Nat.mod_eq_of_lt (by omega)
  · unfold write_header
    rw [hs1, hwm, ← loadWord_storeWord mem block t.sizeof_size_t word]
    apply loadWord_congr
    intro i hi
    unfold storeByte
    rw [if_neg (by omega)]

theorem osd_malloc_some (t : Target) (os : WinMem) (mem : Mem) (n p : Nat)
    (h : (osd_malloc t os mem n).1 = some p) :
    heap_block_of t os n ≠ 0 ∧ p = payload_ptr t (heap_block_of t os n) ∧
      (osd_malloc t os mem n).2 =
        write_header t mem (heap_block_of t os n) (payload_ptr t (heap_block_of t os n))
          (padded_size t n) := by
  unfold osd_malloc at h ⊢
  unfold heap_block_of
  simp only at h ⊢
  by_cases hb : os.HeapAlloc (padded_size t n) = 0
  · rw [if_pos hb] at h
    simp at h
  · rw [if_neg hb] at h ⊢
    simp only [Option.some.injEq] at h
    exact ⟨hb, h.symm, rfl⟩

theorem osd_malloc_array_some (t : Target) (os : WinMem) (mem : Mem) (n p : Nat)
    (h : (osd_malloc_array t os mem n).1 = some p) :
    reserve_base t os n ≠ 0 ∧ commit_base t os n ≠ 0 ∧
      p = payload_ptr t (array_block_of t os n) ∧
      (osd_malloc_array t os mem n).2 =
        write_header t mem (array_block_of t os n) (payload_ptr t (array_block_of t os n))
          (padded_size t n ||| 1) := by
  unfold osd_malloc_array at h ⊢
  unfold array_block_of commit_base reserve_base
  simp only at h ⊢
  by_cases hr : os.VirtualAlloc 0 (addW t (rounded_size t (padded_size t n)) (2 * PAGE_SIZE))
      AllocType.MEM_RESERVE = 0
  · rw [if_pos hr] at h
    simp at h
  · rw [if_neg hr] at h ⊢
    by_cases hc : os.VirtualAlloc
        (addW t (os.VirtualAlloc 0 (addW t (rounded_size t (padded_size t n)) (2 * PAGE_SIZE))
          AllocType.MEM_RESERVE) PAGE_SIZE)
        (rounded_size t (padded_size t n)) AllocType.MEM_COMMIT = 0
    · rw [if_pos hc] at h
      simp at h
    · rw [if_neg hc] at h ⊢
      simp only [Option.some.injEq] at h
      exact ⟨hr, hc, h.symm, rfl⟩

theorem payload_ptr_aligned (t : Target) (hw : t.WellFormed) (block : Nat) :
    payload_ptr t block % t.MAX_ALIGNMENT = 0 := by
  rw [payload_ptr_eq t hw block]
  exact Nat.sub_mod_eq_zero_of_mod_eq (Nat.mod_mod _ _).symm

theorem padded_size_even (t : Target) (hw : t.WellFormed) (n : Nat) :
    padded_size t n % 2 = 0 := by
  rw [padded_size_eq t hw n]
  exact Nat.sub_mod_eq_zero_of_mod_eq (Nat.mod_mod _ _).symm

theorem padded_size_lt (t : Target) (hw : t.WellFormed) (n : Nat) :
    padded_size t n < t.wordMod := by
  rw [padded_size_eq t hw n]
  exact lt_of_le_of_lt (Nat.sub_le _ _) (addW_lt t _ _)

theorem or_one_mod_two (x : Nat) : (x ||| 1) % 2 = 1 := by
  rw [Nat.mod_two_eq_one_iff_testBit_zero, Nat.testBit_or]
  simp

theorem wordMod_even (t : Target) (hw : t.WellFormed) : t.wordMod % 2 = 0 := by
  obtain ⟨hb, _⟩ := hw
  unfold Target.wordMod
  rcases hb with hb | hb <;> rw [hb] <;> norm_num

theorem mod_wordMod_mod_two (t : Target) (hw : t.WellFormed) (x : Nat) :
    x % t.wordMod % 2 = x % 2 := by
  have h := wordMod_even t hw
  exact Nat.mod_mod_of_dvd x (Nat.dvd_of_mod_eq_zero h)

/-- The two word sizes of a well-formed target, as numerals. -/
theorem WellFormed.word_cases (t : Target) (hw : t.WellFormed) :
    (t.wordMod = 4294967296 ∧ t.sizeof_size_t = 4 ∧ t.sizeof_ptr = 4) ∨
      (t.wordMod = 18446744073709551616 ∧ t.sizeof_size_t = 8 ∧ t.sizeof_ptr = 8) := by
  obtain ⟨hb, _⟩ := hw
  unfold Target.wordMod Target.sizeof_size_t Target.sizeof_ptr
  rcases hb with hb | hb <;> rw [hb] <;> norm_num

/-- Geometry of the guarded allocation when the size computations do not overflow and the
committed region lies in the address space: the padded size, the rounded size and the place
of the raw block. -/
theorem array_geometry (t : Target) (hw : t.WellFormed) (os : WinMem) (n : Nat)
    (hn : n + t.MAX_ALIGNMENT + t.sizeof_size_t + 2 + t.sizeof_ptr + PAGE_SIZE ≤ t.wordMod)
    (hc : commit_base t os n + rounded_size t (padded_size t n) ≤ t.wordMod) :
    n + t.MAX_ALIGNMENT + t.sizeof_size_t + 1 ≤ padded_size t n ∧
    padded_size t n ≤ n + t.MAX_ALIGNMENT + t.sizeof_size_t + 2 ∧
    padded_size t n + t.sizeof_ptr ≤ rounded_size t (padded_size t n) ∧
    rounded_size t (padded_size t n) < padded_size t n + t.sizeof_ptr + PAGE_SIZE ∧
    rounded_size t (padded_size t n) % PAGE_SIZE = 0 ∧
    array_block_of t os n + padded_size t n =
      commit_base t os n + rounded_size t (padded_size t n) := by
  have hps := padded_size_eq t hw n
  have hA : 8 ≤ t.MAX_ALIGNMENT ∧ t.MAX_ALIGNMENT ≤ 32 := by
    obtain ⟨_, ha⟩ := hw
    omega
  unfold array_block_of array_block
  simp only [GUARD_ALIGN_START, Bool.false_eq_true, if_false]
  generalize commit_base t os n = c at hc ⊢
  generalize padded_size t n = size at hps hc ⊢
  unfold rounded_size at hc ⊢
  unfold addW at hps
  unfold subW addW
  unfold PAGE_SIZE at hn hc ⊢
  rcases WellFormed.word_cases t hw with ⟨hW, hS, hP⟩ | ⟨hW, hS, hP⟩ <;>
    rw [hW, hS] at hps <;> rw [hW, hP] at hc <;> rw [hW, hS, hP] at hn <;>
    rw [hW, hS, hP] <;> omega

/-! ## The guarded allocation and the trailing guard page -/

/-- C1, as stated, fails on the 64-bit build for a request of 4096 bytes: the reservation
starts at 0x10000, the committed region is [0x11000, 0x11000 + 8192), the payload pointer is
0x11ff0, and payload offset 4096 is the address 0x12ff0, sixteen bytes before the trailing
guard page at 0x13000. -/
theorem guard_page_flush_counterexample :
    (osd_malloc_array x64 (fixedOS 0 0x10000) zeroMem 4096).1 = some 0x11ff0 ∧
    commit_base x64 (fixedOS 0 0x10000) 4096 = 0x11000 ∧
    rounded_size x64 (padded_size x64 4096) = 8192 ∧
    0x11ff0 + 4096 ≠
      commit_base x64 (fixedOS 0 0x10000) 4096 + rounded_size x64 (padded_size x64 4096) := by
  decide

/-- C1, amended: when the size computations do not overflow and the committed region
`[c, c + rounded)` lies in the address space, a successful `osd_malloc_array(n)` places the
raw block, not the payload, flush with the end of the committed region:
`block + padded = c + rounded`. The payload starts inside the committed region and offset `n`
of it is still committed: the trailing guard page starts between 1 and `MAX_ALIGNMENT + 1`
bytes past payload offset `n`. -/
theorem guard_page_block_flush (t : Target) (hw : t.WellFormed) (os : WinMem) (mem : Mem)
    (n p : Nat) (hp : (osd_malloc_array t os mem n).1 = some p)
    (hn : n + t.MAX_ALIGNMENT + t.sizeof_size_t + 2 + t.sizeof_ptr + PAGE_SIZE ≤ t.wordMod)
    (hc : commit_base t os n + rounded_size t (padded_size t n) ≤ t.wordMod) :
    array_block_of t os n + padded_size t n =
      commit_base t os n + rounded_size t (padded_size t n) ∧
    commit_base t os n ≤ p ∧
    p + n < commit_base t os n + rounded_size t (padded_size t n) ∧
    commit_base t os n + rounded_size t (padded_size t n) ≤ p + n + t.MAX_ALIGNMENT + 1 := by
  obtain ⟨_, _, hpe, _⟩ := osd_malloc_array_some t os mem n p hp
  obtain ⟨g1, g2, g3, _, _, g6⟩ := array_geometry t hw os n hn hc
  have hb : array_block_of t os n + t.sizeof_size_t + t.MAX_ALIGNMENT < t.wordMod := by omega
  obtain ⟨w1, w2, _⟩ := write_header_spec t hw mem (array_block_of t os n) 0 hb
  rw [← hpe] at w1 w2
  refine ⟨g6, ?_, ?_, ?_⟩ <;> omega

/-- Witness for the amended C1 on the 64-bit build, request of 4096 bytes. -/
theorem guard_page_block_flush_witness :
    x64.WellFormed ∧
    (osd_malloc_array x64 (fixedOS 0 0x10000) zeroMem 4096).1 = some 0x11ff0 ∧
    array_block_of x64 (fixedOS 0 0x10000) 4096 + padded_size x64 4096 =
      commit_base x64 (fixedOS 0 0x10000) 4096 + rounded_size x64 (padded_size x64 4096) ∧
    commit_base x64 (fixedOS 0 0x10000) 4096 ≤ 0x11ff0 ∧
    0x11ff0 + 4096 <
      commit_base x64 (fixedOS 0 0x10000) 4096 + rounded_size x64 (padded_size x64 4096) ∧
    commit_base x64 (fixedOS 0 0x10000) 4096 + rounded_size x64 (padded_size x64 4096) ≤
      0x11ff0 + 4096 + x64.MAX_ALIGNMENT + 1 :=
  ⟨by decide, by decide,
    guard_page_block_flush x64 (by decide) (fixedOS 0 0x10000) zeroMem 4096 0x11ff0
      (by decide) (by decide) (by decide)⟩

/-- C2 at the failing input: on the 64-bit build a request of 4070 bytes is padded to 4096 and
rounded to 8192, so the raw block starts a whole page above the commit base. The reservation
starts at 0x10000 and is committed from 0x11000; `osd_malloc_array` returns 0x12010, and
`osd_free` of that pointer takes the guard-page branch and releases the address 0x11000,
which is the commit base and not the base 0x10000 of the reservation. -/
theorem osd_free_array_4070_releases_commit_base :
    reserve_base x64 (fixedOS 0 0x10000) 4070 = 0x10000 ∧
    commit_base x64 (fixedOS 0 0x10000) 4070 = 0x10000 + PAGE_SIZE ∧
    padded_size x64 4070 = 4096 ∧
    rounded_size x64 (padded_size x64 4070) = 8192 ∧
    array_block_of x64 (fixedOS 0 0x10000) 4070 = 0x12000 ∧
    (osd_malloc_array x64 (fixedOS 0 0x10000) zeroMem 4070).1 = some 0x12010 ∧
    osd_free x64 (osd_malloc_array x64 (fixedOS 0 0x10000) zeroMem 4070).2 0x12010 =
      Release.VirtualFree 0x11000 ∧
    osd_free x64 (osd_malloc_array x64 (fixedOS 0 0x10000) zeroMem 4070).2 0x12010 ≠
      Release.VirtualFree (reserve_base x64 (fixedOS 0 0x10000) 4070) := by
  decide

/-! ## Alignment, header and round trip -/

/-- C3: on every well-formed target (`MAX_ALIGNMENT` 8, 16 or 32), for every request size
(in particular those in [1, 1 MiB]) and whatever addresses the heap and `VirtualAlloc` return,
`osd_malloc` and `osd_malloc_array` return either `nullptr` or a pointer that is a multiple
of `MAX_ALIGNMENT`. -/
theorem osd_malloc_aligned (t : Target) (hw : t.WellFormed) (os : WinMem) (mem : Mem)
    (n : Nat) :
    ((osd_malloc t os mem n).1 = none ∨
      ∃ p, (osd_malloc t os mem n).1 = some p ∧ p % t.MAX_ALIGNMENT = 0) ∧
    ((osd_malloc_array t os mem n).1 = none ∨
      ∃ p, (osd_malloc_array t os mem n).1 = some p ∧ p % t.MAX_ALIGNMENT = 0) := by
  constructor
  · cases h : (osd_malloc t os mem n).1 with
    | none => exact Or.inl rfl
    | some p =>
      refine Or.inr ⟨p, rfl, ?_⟩
      obtain ⟨_, hpe, _⟩ := osd_malloc_some t os mem n p h
      rw [hpe]
      exact payload_ptr_aligned t hw _
  · cases h : (osd_malloc_array t os mem n).1 with
    | none => exact Or.inl rfl
    | some p =>
      refine Or.inr ⟨p, rfl, ?_⟩
      obtain ⟨_, _, hpe, _⟩ := osd_malloc_array_some t os mem n p h
      rw [hpe]
      exact payload_ptr_aligned t hw _

/-- Witness for C3: the 64-bit build, a request of 17 bytes, heap block at 0x20008. -/
theorem osd_malloc_aligned_witness :
    x64.WellFormed ∧
    ((osd_malloc x64 (fixedOS 0x20008 0x10000) zeroMem 17).1 = none ∨
      ∃ p, (osd_malloc x64 (fixedOS 0x20008 0x10000) zeroMem 17).1 = some p ∧
        p % x64.MAX_ALIGNMENT = 0) ∧
    ((osd_malloc_array x64 (fixedOS 0x20008 0x10000) zeroMem 17).1 = none ∨
      ∃ p, (osd_malloc_array x64 (fixedOS 0x20008 0x10000) zeroMem 17).1 = some p ∧
        p % x64.MAX_ALIGNMENT = 0) :=
  ⟨by decide, osd_malloc_aligned x64 (by decide) (fixedOS 0x20008 0x10000) zeroMem 17⟩

/-- C4: for a successful `osd_malloc` or `osd_malloc_array` whose raw block has its first
`sizeof(size_t) + MAX_ALIGNMENT` bytes in the address space, with `block` the raw block and
`p` the pointer returned: the byte stored at `p - 1` is `p - block`, not truncated;
`1 ≤ p - block ≤ MAX_ALIGNMENT + sizeof(size_t)`; and the size word read back from
`block[0..sizeof(size_t))` has low bit 0 after `osd_malloc` and low bit 1 after
`osd_malloc_array`. -/
theorem header_integrity (t : Target) (hw : t.WellFormed) (os : WinMem) (mem : Mem) (n : Nat) :
    (∀ p, (osd_malloc t os mem n).1 = some p →
      heap_block_of t os n + t.sizeof_size_t + t.MAX_ALIGNMENT < t.wordMod →
      heap_block_of t os n < p ∧
      loadByte (osd_malloc t os mem n).2 (p - 1) = p - heap_block_of t os n ∧
      1 ≤ p - heap_block_of t os n ∧
      p - heap_block_of t os n ≤ t.MAX_ALIGNMENT + t.sizeof_size_t ∧
      loadWord (osd_malloc t os mem n).2 (heap_block_of t os n) t.sizeof_size_t =
        padded_size t n ∧
      loadWord (osd_malloc t os mem n).2 (heap_block_of t os n) t.sizeof_size_t % 2 = 0) ∧
    (∀ p, (osd_malloc_array t os mem n).1 = some p →
      array_block_of t os n + t.sizeof_size_t + t.MAX_ALIGNMENT < t.wordMod →
      array_block_of t os n < p ∧
      loadByte (osd_malloc_array t os mem n).2 (p - 1) = p - array_block_of t os n ∧
      1 ≤ p - array_block_of t os n ∧
      p - array_block_of t os n ≤ t.MAX_ALIGNMENT + t.sizeof_size_t ∧
      loadWord (osd_malloc_array t os mem n).2 (array_block_of t os n) t.sizeof_size_t =
        (padded_size t n ||| 1) % t.wordMod ∧
      loadWord (osd_malloc_array t os mem n).2 (array_block_of t os n) t.sizeof_size_t % 2 =
        1) := by
  constructor
  · intro p hp hb
    obtain ⟨_, hpe, hmem⟩ := osd_malloc_some t os mem n p hp
    obtain ⟨w1, w2, _, w4, _, w6⟩ :=
      write_header_spec t hw mem (heap_block_of t os n) (padded_size t n) hb
    rw [hmem, hpe, w6, w4, Nat.mod_eq_of_lt (padded_size_lt t hw n)]
    refine ⟨by omega, rfl, by omega, by omega, rfl, padded_size_even t hw n⟩
  · intro p hp hb
    obtain ⟨_, _, hpe, hmem⟩ := osd_malloc_array_some t os mem n p hp
    obtain ⟨w1, w2, _, w4, _, w6⟩ :=
      write_header_spec t hw mem (array_block_of t os n) (padded_size t n ||| 1) hb
    rw [hmem, hpe, w6, w4, mod_wordMod_mod_two t hw]
    refine ⟨by omega, rfl, by omega, by omega, rfl, or_one_mod_two _⟩

/-- Witness for C4: the 64-bit build, a request of 17 bytes; the heap block is at 0x20008 and
`osd_malloc` returns 0x20020, the guarded block is at 0x11fd6 and `osd_malloc_array` returns
0x11fe0. -/
theorem header_integrity_witness :
    x64.WellFormed ∧
    (osd_malloc x64 (fixedOS 0x20008 0x10000) zeroMem 17).1 = some 0x20020 ∧
    (osd_malloc_array x64 (fixedOS 0x20008 0x10000) zeroMem 17).1 = some 0x11fe0 ∧
    (heap_block_of x64 (fixedOS 0x20008 0x10000) 17 < 0x20020 ∧
      loadByte (osd_malloc x64 (fixedOS 0x20008 0x10000) zeroMem 17).2 (0x20020 - 1) =
        0x20020 - heap_block_of x64 (fixedOS 0x20008 0x10000) 17 ∧
      1 ≤ 0x20020 - heap_block_of x64 (fixedOS 0x20008 0x10000) 17 ∧
      0x20020 - heap_block_of x64 (fixedOS 0x20008 0x10000) 17 ≤
        x64.MAX_ALIGNMENT + x64.sizeof_size_t ∧
      loadWord (osd_malloc x64 (fixedOS 0x20008 0x10000) zeroMem 17).2
        (heap_block_of x64 (fixedOS 0x20008 0x10000) 17) x64.sizeof_size_t =
        padded_size x64 17 ∧
      loadWord (osd_malloc x64 (fixedOS 0x20008 0x10000) zeroMem 17).2
        (heap_block_of x64 (fixedOS 0x20008 0x10000) 17) x64.sizeof_size_t % 2 = 0) ∧
    (array_block_of x64 (fixedOS 0x20008 0x10000) 17 < 0x11fe0 ∧
      loadByte (osd_malloc_array x64 (fixedOS 0x20008 0x10000) zeroMem 17).2 (0x11fe0 - 1) =
        0x11fe0 - array_block_of x64 (fixedOS 0x20008 0x10000) 17 ∧
      1 ≤ 0x11fe0 - array_block_of x64 (fixedOS 0x20008 0x10000) 17 ∧
      0x11fe0 - array_block_of x64 (fixedOS 0x20008 0x10000) 17 ≤
        x64.MAX_ALIGNMENT + x64.sizeof_size_t ∧
      loadWord (osd_malloc_array x64 (fixedOS 0x20008 0x10000) zeroMem 17).2
        (array_block_of x64 (fixedOS 0x20008 0x10000) 17) x64.sizeof_size_t =
        (padded_size x64 17 ||| 1) % x64.wordMod ∧
      loadWord (osd_malloc_array x64 (fixedOS 0x20008 0x10000) zeroMem 17).2
        (array_block_of x64 (fixedOS 0x20008 0x10000) 17) x64.sizeof_size_t % 2 = 1) :=
  ⟨by decide, by decide, by decide,
    (header_integrity x64 (by decide) (fixedOS 0x20008 0x10000) zeroMem 17).1 0x20020
      (by decide) (by decide),
    (header_integrity x64 (by decide) (fixedOS 0x20008 0x10000) zeroMem 17).2 0x11fe0
      (by decide) (by decide)⟩

/-- C5: for a successful `osd_malloc(n)` with raw block `b` returned by the process heap (its
first `sizeof(size_t) + MAX_ALIGNMENT` bytes in the address space), `osd_free` of the pointer
returned reads the back-offset `p - b` from the byte before `p`, reads the padded size from the
word at `b`, finds its low bit clear, and releases exactly `b` to the process heap. -/
theorem osd_free_osd_malloc (t : Target) (hw : t.WellFormed) (os : WinMem) (mem : Mem)
    (n p : Nat) (hp : (osd_malloc t os mem n).1 = some p)
    (hb : heap_block_of t os n + t.sizeof_size_t + t.MAX_ALIGNMENT < t.wordMod) :
    loadByte (osd_malloc t os mem n).2 (subW t p 1) = p - heap_block_of t os n ∧
    subW t p (loadByte (osd_malloc t os mem n).2 (subW t p 1)) = heap_block_of t os n ∧
    loadWord (osd_malloc t os mem n).2 (heap_block_of t os n) t.sizeof_size_t =
      padded_size t n ∧
    padded_size t n &&& 1 = 0 ∧
    osd_free t (osd_malloc t os mem n).2 p = Release.HeapFree (heap_block_of t os n) := by
  obtain ⟨_, hpe, hmem⟩ := osd_malloc_some t os mem n p hp
  obtain ⟨_, _, w3, w4, w5, w6⟩ :=
    write_header_spec t hw mem (heap_block_of t os n) (padded_size t n) hb
  rw [Nat.mod_eq_of_lt (padded_size_lt t hw n)] at w6
  have hlow : padded_size t n &&& 1 = 0 := by
    rw [Nat.and_one_is_mod]
    exact padded_size_even t hw n
  have h1 : loadByte (osd_malloc t os mem n).2 (subW t p 1) = p - heap_block_of t os n := by
    rw [hmem, hpe, w3, w4]
  have h2 : subW t p (loadByte (osd_malloc t os mem n).2 (subW t p 1)) =
      heap_block_of t os n := by
    rw [h1, hpe, w5]
  have h3 : loadWord (osd_malloc t os mem n).2 (heap_block_of t os n) t.sizeof_size_t =
      padded_size t n := by
    rw [hmem, w6]
  refine ⟨h1, h2, h3, hlow, ?_⟩
  unfold osd_free
  simp only
  rw [h2, h3, if_pos hlow]

/-- Witness for C5: the 64-bit build, a request of 17 bytes, heap block at 0x20008. -/
theorem osd_free_osd_malloc_witness :
    x64.WellFormed ∧
    (osd_malloc x64 (fixedOS 0x20008 0x10000) zeroMem 17).1 = some 0x20020 ∧
    heap_block_of x64 (fixedOS 0x20008 0x10000) 17 + x64.sizeof_size_t + x64.MAX_ALIGNMENT <
      x64.wordMod ∧
    (loadByte (osd_malloc x64 (fixedOS 0x20008 0x10000) zeroMem 17).2 (subW x64 0x20020 1) =
        0x20020 - heap_block_of x64 (fixedOS 0x20008 0x10000) 17 ∧
      subW x64 0x20020
          (loadByte (osd_malloc x64 (fixedOS 0x20008 0x10000) zeroMem 17).2
            (subW x64 0x20020 1)) =
        heap_block_of x64 (fixedOS 0x20008 0x10000) 17 ∧
      loadWord (osd_malloc x64 (fixedOS 0x20008 0x10000) zeroMem 17).2
          (heap_block_of x64 (fixedOS 0x20008 0x10000) 17) x64.sizeof_size_t =
        padded_size x64 17 ∧
      padded_size x64 17 &&& 1 = 0 ∧
      osd_free x64 (osd_malloc x64 (fixedOS 0x20008 0x10000) zeroMem 17).2 0x20020 =
        Release.HeapFree (heap_block_of x64 (fixedOS 0x20008 0x10000) 17)) :=
  ⟨by decide, by decide, by decide,
    osd_free_osd_malloc x64 (by decide) (fixedOS 0x20008 0x10000) zeroMem 17 0x20020
      (by decide) (by decide)⟩

/-! ## The runtime environment store -/

/-- C6 at the failing input: on the empty store, `osd_setenv("Foo", "w", 1)` followed by
`osd_setenv("Foo", "x", 1)` (the same name pointer) leaves the single buffer `Foo=x`, and
`osd_getenv("FOO")` returns that whole buffer, `Foo=x`, which is not the value `x`. -/
theorem osd_getenv_returns_name_and_value :
    stricmp (sampleStrings 0x1000) (sampleStrings 0x2000) = 0 ∧
    sampleStrings 0x4000 = "x" ∧
    (osd_setenv sampleStrings (osd_setenv sampleStrings [] 0x1000 0x3000 1).2 0x1000 0x4000 1).2 =
      [(0x1000, "Foo=x")] ∧
    osd_getenv sampleStrings
      (osd_setenv sampleStrings (osd_setenv sampleStrings [] 0x1000 0x3000 1).2 0x1000 0x4000 1).2
      0x2000 = some "Foo=x" ∧
    osd_getenv sampleStrings
      (osd_setenv sampleStrings (osd_setenv sampleStrings [] 0x1000 0x3000 1).2 0x1000 0x4000 1).2
      0x2000 ≠ some (sampleStrings 0x4000) := by
  decide

theorem osd_getenv_ne_none_iff (strs : Strings) (env : Environment) (name : Nat) :
    osd_getenv strs env name ≠ none ↔ ∃ e ∈ env, stricmp (strs e.1) (strs name) = 0 := by
  induction env with
  | nil => simp [osd_getenv]
  | cons e rest ih =>
    obtain ⟨k, b⟩ := e
    simp only [osd_getenv, List.mem_cons]
    by_cases h : stricmp (strs k) (strs name) = 0
    · rw [if_pos h]
      constructor
      · intro _
        exact ⟨(k, b), Or.inl rfl, h⟩
      · intro _
        simp
    · rw [if_neg h, ih]
      constructor
      · rintro ⟨e, he, hm⟩
        exact ⟨e, Or.inr he, hm⟩
      · rintro ⟨e, he | he, hm⟩
        · rw [he] at hm
          exact absurd hm h
        · exact ⟨e, he, hm⟩

/-- C7: when some stored name equals `name` ignoring ASCII case, `osd_getenv(name)` is
present, and `osd_setenv(name, value, 0)` returns 0 and leaves the whole store unchanged, so
`osd_getenv` of every name returns what it returned before. -/
theorem osd_setenv_no_overwrite (strs : Strings) (env : Environment) (name value : Nat)
    (h : ∃ e ∈ env, stricmp (strs e.1) (strs name) = 0) :
    osd_getenv strs env name ≠ none ∧
    osd_setenv strs env name value 0 = (0, env) ∧
    ∀ other, osd_getenv strs (osd_setenv strs env name value 0).2 other =
      osd_getenv strs env other := by
  have hg : osd_getenv strs env name ≠ none := (osd_getenv_ne_none_iff strs env name).2 h
  have hs : osd_setenv strs env name value 0 = (0, env) := by
    unfold osd_setenv
    rw [if_pos ⟨rfl, hg⟩]
  refine ⟨hg, hs, ?_⟩
  intro other
  rw [hs]

/-- Witness for C7: the store holds `Foo=w` under the name at 0x1000; a non-overwriting set of
the name `FOO` at 0x2000 changes nothing. -/
theorem osd_setenv_no_overwrite_witness :
    (∃ e ∈ [((0x1000 : Nat), "Foo=w")], stricmp (sampleStrings e.1) (sampleStrings 0x2000) = 0) ∧
    (osd_getenv sampleStrings [(0x1000, "Foo=w")] 0x2000 ≠ none ∧
      osd_setenv sampleStrings [(0x1000, "Foo=w")] 0x2000 0x4000 0 = (0, [(0x1000, "Foo=w")]) ∧
      ∀ other, osd_getenv sampleStrings
          (osd_setenv sampleStrings [(0x1000, "Foo=w")] 0x2000 0x4000 0).2 other =
        osd_getenv sampleStrings [(0x1000, "Foo=w")] other) :=
  ⟨⟨(0x1000, "Foo=w"), by simp, by decide⟩,
    osd_setenv_no_overwrite sampleStrings [(0x1000, "Foo=w")] 0x2000 0x4000
      ⟨(0x1000, "Foo=w"), by simp, by decide⟩⟩

/-- C8 at the failing input: on the empty store, `osd_setenv("Foo", "w", 1)` with the name at
0x1000 followed by `osd_setenv("FOO", "x", 1)` with the name at 0x2000 leaves two entries
whose names equal `Foo` ignoring case, and `osd_getenv("Foo")` returns the buffer written by
the first set. -/
theorem osd_setenv_keyed_by_pointer :
    stricmp (sampleStrings 0x1000) (sampleStrings 0x2000) = 0 ∧
    (osd_setenv sampleStrings (osd_setenv sampleStrings [] 0x1000 0x3000 1).2 0x2000 0x4000 1).2 =
      [(0x1000, "Foo=w"), (0x2000, "FOO=x")] ∧
    (matching_entries sampleStrings
      (osd_setenv sampleStrings (osd_setenv sampleStrings [] 0x1000 0x3000 1).2 0x2000 0x4000 1).2
      0x1000).length = 2 ∧
    osd_getenv sampleStrings
      (osd_setenv sampleStrings (osd_setenv sampleStrings [] 0x1000 0x3000 1).2 0x2000 0x4000 1).2
      0x1000 = some "Foo=w" := by
  decide

/-! ## The dynamic module loader -/

theorem get_symbol_address_bound (os : WinLoader) (self : dynamic_module_win32_impl)
    (M : Nat) (symbol : String) (h : self.m_module = some M) :
    get_symbol_address os self symbol =
      ⟨os.GetProcAddress M symbol, self, [LoaderCall.resolve M symbol]⟩ := by
  unfold get_symbol_address
  rw [h]

theorem get_symbol_addresses_bound (os : WinLoader) (self : dynamic_module_win32_impl)
    (M : Nat) (h : self.m_module = some M) (symbols : List String) :
    get_symbol_addresses os self symbols =
      (symbols.map (os.GetProcAddress M), self, symbols.map (LoaderCall.resolve M)) := by
  induction symbols with
  | nil => rfl
  | cons symbol rest ih =>
    simp only [get_symbol_addresses, get_symbol_address_bound os self M symbol h, ih,
      List.map_cons, List.singleton_append]

theorem get_symbol_addresses_append (os : WinLoader) (self : dynamic_module_win32_impl)
    (first later : List String) :
    get_symbol_addresses os self (first ++ later) =
      ((get_symbol_addresses os self first).1 ++
          (get_symbol_addresses os (get_symbol_addresses os self first).2.1 later).1,
        (get_symbol_addresses os (get_symbol_addresses os self first).2.1 later).2.1,
        (get_symbol_addresses os self first).2.2 ++
          (get_symbol_addresses os (get_symbol_addresses os self first).2.1 later).2.2) := by
  induction first generalizing self with
  | nil => simp [get_symbol_addresses]
  | cons symbol rest ih =>
    have e : (symbol :: rest) ++ later = symbol :: (rest ++ later) := rfl
    rw [e]
    simp only [get_symbol_addresses]
    rw [ih (get_symbol_address os self symbol).self]
    simp only [List.cons_append, List.append_assoc]

/-- C9: in every sequence of `get_symbol_address` calls on one object, once the calls made so
far have left `m_module` set to a module `M`, all later calls leave the object unchanged,
return exactly `GetProcAddress(M, symbol)` (absent included), and make no platform call but
that `GetProcAddress`: no library is loaded or freed. -/
theorem loader_pinned (os : WinLoader) (self : dynamic_module_win32_impl) (M : Nat)
    (first later : List String)
    (h : (get_symbol_addresses os self first).2.1.m_module = some M) :
    get_symbol_addresses os self (first ++ later) =
      ((get_symbol_addresses os self first).1 ++ later.map (os.GetProcAddress M),
        (get_symbol_addresses os self first).2.1,
        (get_symbol_addresses os self first).2.2 ++ later.map (LoaderCall.resolve M)) := by
  rw [get_symbol_addresses_append,
    get_symbol_addresses_bound os (get_symbol_addresses os self first).2.1 M h later]

/-- Witness for C9: candidates `real_a.lib` and `real_b.lib` both export `sym`; after `sym` is
resolved once the handle is bound to module 1 (`real_a.lib`), and the later symbols `only_a`
and `sym` are both resolved from module 1. -/
theorem loader_pinned_witness :
    (get_symbol_addresses sampleLoader ⟨["real_a.lib", "real_b.lib"], none⟩
      ["sym"]).2.1.m_module = some 1 ∧
    get_symbol_addresses sampleLoader ⟨["real_a.lib", "real_b.lib"], none⟩
        (["sym"] ++ ["only_a", "sym"]) =
      ((get_symbol_addresses sampleLoader ⟨["real_a.lib", "real_b.lib"], none⟩ ["sym"]).1 ++
          ["only_a", "sym"].map (sampleLoader.GetProcAddress 1),
        (get_symbol_addresses sampleLoader ⟨["real_a.lib", "real_b.lib"], none⟩ ["sym"]).2.1,
        (get_symbol_addresses sampleLoader ⟨["real_a.lib", "real_b.lib"], none⟩ ["sym"]).2.2 ++
          ["only_a", "sym"].map (LoaderCall.resolve 1)) :=
  ⟨by decide,
    loader_pinned sampleLoader ⟨["real_a.lib", "real_b.lib"], none⟩ 1 ["sym"] ["only_a", "sym"]
      (by decide)⟩

theorem get_symbol_address_loop_first (os : WinLoader) (self : dynamic_module_win32_impl)
    (symbol : String) (libraries : List String)
    (hex : ∃ l ∈ libraries, ∃ m f, os.load_library l = some m ∧
      os.GetProcAddress m symbol = some f) :
    ∃ skipped library rest M f,
      libraries = skipped ++ library :: rest ∧
      (∀ l ∈ skipped, ∀ m, os.load_library l = some m → os.GetProcAddress m symbol = none) ∧
      os.load_library library = some M ∧
      os.GetProcAddress M symbol = some f ∧
      get_symbol_address_loop os self symbol libraries =
        ⟨some f, { self with m_module := some M },
          (get_symbol_address_loop os self symbol skipped).calls ++
            [LoaderCall.load library, LoaderCall.resolve M symbol]⟩ := by
  induction libraries with
  | nil =>
    obtain ⟨l, hl, _⟩ := hex
    simp at hl
  | cons library rest ih =>
    cases hload : os.load_library library with
    | none =>
      have hex2 : ∃ l ∈ rest, ∃ m f, os.load_library l = some m ∧
          os.GetProcAddress m symbol = some f := by
        obtain ⟨l, hl, m, f, h1, h2⟩ := hex
        rcases List.mem_cons.1 hl with rfl | hl
        · rw [hload] at h1
          simp at h1
        · exact ⟨l, hl, m, f, h1, h2⟩
      obtain ⟨skipped, lib, post, M, f, e1, e2, e3, e4, e5⟩ := ih hex2
      refine ⟨library :: skipped, lib, post, M, f, by rw [e1]; rfl, ?_, e3, e4, ?_⟩
      · intro l hl m hm
        rcases List.mem_cons.1 hl with rfl | hl
        · rw [hload] at hm
          simp at hm
        · exact e2 l hl m hm
      · simp only [get_symbol_address_loop, hload, e5, List.cons_append]
    | some m0 =>
      cases hres : os.GetProcAddress m0 symbol with
      | some f0 =>
        refine ⟨[], library, rest, m0, f0, rfl, ?_, hload, hres, ?_⟩
        · intro l hl
          simp at hl
        · simp only [get_symbol_address_loop, hload, hres, List.nil_append]
      | none =>
        have hex2 : ∃ l ∈ rest, ∃ m f, os.load_library l = some m ∧
            os.GetProcAddress m symbol = some f := by
          obtain ⟨l, hl, m, f, h1, h2⟩ := hex
          rcases List.mem_cons.1 hl with rfl | hl
          · rw [hload] at h1
            simp only [Option.some.injEq] at h1
            rw [← h1, hres] at h2
            simp at h2
          · exact ⟨l, hl, m, f, h1, h2⟩
        obtain ⟨skipped, lib, post, M, f, e1, e2, e3, e4, e5⟩ := ih hex2
        refine ⟨library :: skipped, lib, post, M, f, by rw [e1]; rfl, ?_, e3, e4, ?_⟩
        · intro l hl m hm
          rcases List.mem_cons.1 hl with rfl | hl
          · rw [hload] at hm
            simp only [Option.some.injEq] at hm
            rw [← hm]
            exact hres
          · exact e2 l hl m hm
        · simp only [get_symbol_address_loop, hload, hres, e5, List.cons_append]

/-- C10: on an unbound handle, when at least one candidate both loads and exports the symbol,
the candidate list splits as `skipped ++ library :: rest` where every candidate of `skipped`
fails to load or lacks the symbol and `library` loads as `M` and exports the symbol as `f`;
`get_symbol_address` returns `f`, sets `m_module` to `M`, and after the calls made for the
skipped candidates it only loads `library` and resolves the symbol in it. -/
theorem loader_first_usable (os : WinLoader) (self : dynamic_module_win32_impl)
    (symbol : String) (hu : self.m_module = none)
    (hex : ∃ l ∈ self.m_libraries, ∃ m f, os.load_library l = some m ∧
      os.GetProcAddress m symbol = some f) :
    ∃ skipped library rest M f,
      self.m_libraries = skipped ++ library :: rest ∧
      (∀ l ∈ skipped, ∀ m, os.load_library l = some m → os.GetProcAddress m symbol = none) ∧
      os.load_library library = some M ∧
      os.GetProcAddress M symbol = some f ∧
      get_symbol_address os self symbol =
        ⟨some f, { self with m_module := some M },
          (get_symbol_address_loop os self symbol skipped).calls ++
            [LoaderCall.load library, LoaderCall.resolve M symbol]⟩ := by
  unfold get_symbol_address
  rw [hu]
  exact get_symbol_address_loop_first os self symbol self.m_libraries hex

/-- Witness for C10: with the candidates `nonexistent.lib` and `real_b.lib`, the first does not
load and is skipped, and the handle binds to the module of `real_b.lib`. -/
theorem loader_first_usable_witness :
    (⟨["nonexistent.lib", "real_b.lib"], none⟩ : dynamic_module_win32_impl).m_module = none ∧
    (∃ l ∈ (⟨["nonexistent.lib", "real_b.lib"], none⟩ : dynamic_module_win32_impl).m_libraries,
      ∃ m f, sampleLoader.load_library l = some m ∧
        sampleLoader.GetProcAddress m "sym" = some f) ∧
    ∃ skipped library rest M f,
      (⟨["nonexistent.lib", "real_b.lib"], none⟩ : dynamic_module_win32_impl).m_libraries =
        skipped ++ library :: rest ∧
      (∀ l ∈ skipped, ∀ m, sampleLoader.load_library l = some m →
        sampleLoader.GetProcAddress m "sym" = none) ∧
      sampleLoader.load_library library = some M ∧
      sampleLoader.GetProcAddress M "sym" = some f ∧
      get_symbol_address sampleLoader ⟨["nonexistent.lib", "real_b.lib"], none⟩ "sym" =
        ⟨some f, { (⟨["nonexistent.lib", "real_b.lib"], none⟩ : dynamic_module_win32_impl) with
            m_module := some M },
          (get_symbol_address_loop sampleLoader ⟨["nonexistent.lib", "real_b.lib"], none⟩ "sym"
              skipped).calls ++
            [LoaderCall.load library, LoaderCall.resolve M "sym"]⟩ :=
  ⟨rfl, ⟨"real_b.lib", by simp, 2, 200, by decide, by decide⟩,
    loader_first_usable sampleLoader ⟨["nonexistent.lib", "real_b.lib"], none⟩ "sym" rfl
      ⟨"real_b.lib", by simp, 2, 200, by decide, by decide⟩⟩

/-! ## Further facts about the guarded round trip and the environment store -/

/-- The address `osd_free` releases after a successful `osd_malloc_array(n)`, when the sizes do
not overflow, the reservation base `R` is page-aligned, the commit starts at `R + PAGE_SIZE`
and the committed region lies in the address space: the guard-page branch is taken, and the
address released is `R` when the raw block starts in the first committed page and
`R + PAGE_SIZE` when `rounded - padded` reaches `PAGE_SIZE`. -/
theorem osd_free_osd_malloc_array (t : Target) (hw : t.WellFormed) (os : WinMem) (mem : Mem)
    (n p : Nat) (hp : (osd_malloc_array t os mem n).1 = some p)
    (hn : n + t.MAX_ALIGNMENT + t.sizeof_size_t + 2 + t.sizeof_ptr + PAGE_SIZE ≤ t.wordMod)
    (hR : reserve_base t os n % PAGE_SIZE = 0)
    (hcR : commit_base t os n = reserve_base t os n + PAGE_SIZE)
    (hc : commit_base t os n + rounded_size t (padded_size t n) ≤ t.wordMod) :
    osd_free t (osd_malloc_array t os mem n).2 p =
      Release.VirtualFree
        (if rounded_size t (padded_size t n) - padded_size t n < PAGE_SIZE
          then reserve_base t os n else reserve_base t os n + PAGE_SIZE) := by
  obtain ⟨_, _, hpe, hmem⟩ := osd_malloc_array_some t os mem n p hp
  obtain ⟨g1, g2, g3, g4, g5, g6⟩ := array_geometry t hw os n hn hc
  have hb : array_block_of t os n + t.sizeof_size_t + t.MAX_ALIGNMENT < t.wordMod := by omega
  obtain ⟨_, _, w3, w4, w5, w6⟩ :=
    write_header_spec t hw mem (array_block_of t os n) (padded_size t n ||| 1) hb
  have h1 : loadByte (osd_malloc_array t os mem n).2 (subW t p 1) =
      p - array_block_of t os n := by
    rw [hmem, hpe, w3, w4]
  have h2 : subW t p (loadByte (osd_malloc_array t os mem n).2 (subW t p 1)) =
      array_block_of t os n := by
    rw [h1, hpe, w5]
  have h3 : loadWord (osd_malloc_array t os mem n).2 (array_block_of t os n) t.sizeof_size_t =
      (padded_size t n ||| 1) % t.wordMod := by
    rw [hmem, w6]
  have hlow : ¬ ((padded_size t n ||| 1) % t.wordMod &&& 1 = 0) := by
    rw [Nat.and_one_is_mod, mod_wordMod_mod_two t hw, or_one_mod_two]
    decide
  have hblt : array_block_of t os n < t.wordMod := by omega
  have hmask := page_mask_eq t hw (array_block_of t os n) hblt
  unfold osd_free
  simp only
  rw [h2, h3, if_neg hlow, hmask]
  congr 1
  have hP : t.sizeof_ptr ≤ 8 := by
    rcases WellFormed.word_cases t hw with ⟨_, _, h⟩ | ⟨_, _, h⟩ <;> omega
  have hW : PAGE_SIZE < t.wordMod := by omega
  unfold subW
  rw [Nat.mod_eq_of_lt (lt_of_le_of_lt (Nat.sub_le _ _) hblt), Nat.mod_eq_of_lt hW]
  have hge : PAGE_SIZE ≤ array_block_of t os n - array_block_of t os n % PAGE_SIZE := by
    unfold PAGE_SIZE at *
    omega
  have e : array_block_of t os n - array_block_of t os n % PAGE_SIZE + t.wordMod - PAGE_SIZE =
      (array_block_of t os n - array_block_of t os n % PAGE_SIZE - PAGE_SIZE) + t.wordMod := by
    omega
  rw [e, Nat.add_mod_right, Nat.mod_eq_of_lt (by omega)]
  unfold PAGE_SIZE at *
  split <;> omega

theorem mem_map_assign (env : Environment) (key : Nat) (buf : String) (e : Nat × String)
    (h : e ∈ map_assign env key buf) : e = (key, buf) ∨ e ∈ env := by
  induction env with
  | nil =>
    simp only [map_assign, List.mem_singleton] at h
    exact Or.inl h
  | cons x rest ih =>
    obtain ⟨k, b⟩ := x
    simp only [map_assign] at h
    by_cases h1 : key < k
    · rw [if_pos h1] at h
      rcases List.mem_cons.1 h with h | h
      · exact Or.inl h
      · exact Or.inr h
    · rw [if_neg h1] at h
      by_cases h2 : key = k
      · rw [if_pos h2] at h
        rcases List.mem_cons.1 h with h | h
        · exact Or.inl h
        · exact Or.inr (List.mem_cons_of_mem _ h)
      · rw [if_neg h2] at h
        rcases List.mem_cons.1 h with h | h
        · exact Or.inr (h ▸ List.mem_cons_self _ _)
        · rcases ih h with h | h
          · exact Or.inl h
          · exact Or.inr (List.mem_cons_of_mem _ h)

/-- After `map[key] = buf`, a lookup of a name that matches the string at `key` and no string
at another stored key returns `buf`. -/
theorem osd_getenv_map_assign (strs : Strings) (env : Environment) (key : Nat) (buf : String)
    (name : Nat) (hm : stricmp (strs key) (strs name) = 0)
    (hno : ∀ e ∈ env, e.1 ≠ key → stricmp (strs e.1) (strs name) ≠ 0) :
    osd_getenv strs (map_assign env key buf) name = some buf := by
  induction env with
  | nil => simp [map_assign, osd_getenv, hm]
  | cons x rest ih =>
    obtain ⟨k, b⟩ := x
    simp only [map_assign]
    by_cases h1 : key < k
    · rw [if_pos h1]
      simp [osd_getenv, hm]
    · rw [if_neg h1]
      by_cases h2 : key = k
      · rw [if_pos h2]
        simp [osd_getenv, hm]
      · rw [if_neg h2]
        have hk : stricmp (strs k) (strs name) ≠ 0 :=
          hno (k, b) (List.mem_cons_self _ _) (fun h => h2 h.symm)
        simp only [osd_getenv]
        rw [if_neg hk]
        exact ih (fun e he hne => hno e (List.mem_cons_of_mem _ he) hne)

/-- Last write wins for the stored buffer: after two overwriting sets through the same name
pointer, a lookup of a name that matches it ignoring case, on a store where no entry under
another pointer matches, returns the buffer `name=value` of the second set. -/
theorem osd_getenv_osd_setenv_twice (strs : Strings) (env : Environment)
    (name v1 v2 other : Nat) (hm : stricmp (strs name) (strs other) = 0)
    (hno : ∀ e ∈ env, e.1 ≠ name → stricmp (strs e.1) (strs other) ≠ 0) :
    osd_getenv strs (osd_setenv strs (osd_setenv strs env name v1 1).2 name v2 1).2 other =
      some (strs name ++ "=" ++ strs v2) := by
  have h1 : ∀ e v, (osd_setenv strs e name v 1).2 =
      map_assign e name (strs name ++ "=" ++ strs v) := by
    intro e v
    unfold osd_setenv
    rw [if_neg (by simp)]
  rw [h1, h1]
  apply osd_getenv_map_assign strs _ name _ other hm
  intro e he hne
  rcases mem_map_assign env name _ e he with h | h
  · rw [h] at hne
    exact absurd rfl hne
  · exact hno e h hne

/-! ## The loader: exhaustion and module balance -/

theorem get_symbol_address_loop_none (os : WinLoader) (self : dynamic_module_win32_impl)
    (symbol : String) (libraries : List String)
    (hno : ∀ l ∈ libraries, ∀ m, os.load_library l = some m →
      os.GetProcAddress m symbol = none) :
    (get_symbol_address_loop os self symbol libraries).function = none ∧
    (get_symbol_address_loop os self symbol libraries).self = self ∧
    libraries_tried (get_symbol_address_loop os self symbol libraries).calls = libraries := by
  induction libraries with
  | nil => exact ⟨rfl, rfl, rfl⟩
  | cons library rest ih =>
    obtain ⟨i1, i2, i3⟩ := ih (fun l hl => hno l (List.mem_cons_of_mem _ hl))
    cases hload : os.load_library library with
    | none =>
      simp only [get_symbol_address_loop, hload, libraries_tried]
      exact ⟨i1, i2, by rw [i3]⟩
    | some m =>
      have hres := hno library (List.mem_cons_self _ _) m hload
      simp only [get_symbol_address_loop, hload, hres, libraries_tried]
      exact ⟨i1, i2, by rw [i3]⟩

/-- C11: on an unbound handle, when no candidate both loads and exports the symbol (the empty
candidate list included), `get_symbol_address` returns absent after trying every candidate in
order and leaves the object as it was, `m_module` unset, so that the next call runs the loop
over the full candidate list again. -/
theorem loader_exhausted (os : WinLoader) (self : dynamic_module_win32_impl) (symbol : String)
    (hu : self.m_module = none)
    (hno : ∀ l ∈ self.m_libraries, ∀ m, os.load_library l = some m →
      os.GetProcAddress m symbol = none) :
    (get_symbol_address os self symbol).function = none ∧
    (get_symbol_address os self symbol).self = self ∧
    (get_symbol_address os self symbol).self.m_module = none ∧
    libraries_tried (get_symbol_address os self symbol).calls = self.m_libraries ∧
    ∀ next, get_symbol_address os (get_symbol_address os self symbol).self next =
      get_symbol_address_loop os self next self.m_libraries := by
  obtain ⟨h1, h2, h3⟩ := get_symbol_address_loop_none os self symbol self.m_libraries hno
  have e : get_symbol_address os self symbol =
      get_symbol_address_loop os self symbol self.m_libraries := by
    unfold get_symbol_address
    rw [hu]
  rw [e]
  refine ⟨h1, h2, by rw [h2]; exact hu, h3, ?_⟩
  intro next
  rw [h2]
  unfold get_symbol_address
  rw [hu]

/-- Witness for C11: the candidates `nonexistent.lib` and `real_b.lib`, the symbol `only_a`
that `real_b.lib` does not export. -/
theorem loader_exhausted_witness :
    (⟨["nonexistent.lib", "real_b.lib"], none⟩ : dynamic_module_win32_impl).m_module = none ∧
    (∀ l ∈ (⟨["nonexistent.lib", "real_b.lib"], none⟩ : dynamic_module_win32_impl).m_libraries,
      ∀ m, sampleLoader.load_library l = some m →
        sampleLoader.GetProcAddress m "only_a" = none) ∧
    ((get_symbol_address sampleLoader ⟨["nonexistent.lib", "real_b.lib"], none⟩
        "only_a").function = none ∧
      (get_symbol_address sampleLoader ⟨["nonexistent.lib", "real_b.lib"], none⟩ "only_a").self =
        ⟨["nonexistent.lib", "real_b.lib"], none⟩ ∧
      (get_symbol_address sampleLoader ⟨["nonexistent.lib", "real_b.lib"], none⟩
        "only_a").self.m_module = none ∧
      libraries_tried
          (get_symbol_address sampleLoader ⟨["nonexistent.lib", "real_b.lib"], none⟩
            "only_a").calls =
        (⟨["nonexistent.lib", "real_b.lib"], none⟩ : dynamic_module_win32_impl).m_libraries ∧
      ∀ next,
        get_symbol_address sampleLoader
            (get_symbol_address sampleLoader ⟨["nonexistent.lib", "real_b.lib"], none⟩
              "only_a").self next =
          get_symbol_address_loop sampleLoader ⟨["nonexistent.lib", "real_b.lib"], none⟩ next
            (⟨["nonexistent.lib", "real_b.lib"], none⟩ :
              dynamic_module_win32_impl).m_libraries) :=
  ⟨rfl, by decide,
    loader_exhausted sampleLoader ⟨["nonexistent.lib", "real_b.lib"], none⟩ "only_a" rfl
      (by decide)⟩

theorem get_symbol_address_loop_balance (os : WinLoader) (self : dynamic_module_win32_impl)
    (symbol : String) (hu : self.m_module = none) (libraries : List String) :
    held_module os none (get_symbol_address_loop os self symbol libraries).calls =
      some (get_symbol_address_loop os self symbol libraries).self.m_module ∧
    loaded_modules os (get_symbol_address_loop os self symbol libraries).calls =
      freed_modules (get_symbol_address_loop os self symbol libraries).calls ++
        (get_symbol_address_loop os self symbol libraries).self.m_module.toList ∧
    ((get_symbol_address_loop os self symbol libraries).function = none →
      (get_symbol_address_loop os self symbol libraries).self.m_module = none) ∧
    (∀ m, (get_symbol_address_loop os self symbol libraries).self.m_module = some m →
      (get_symbol_address_loop os self symbol libraries).function ≠ none ∧
      ∃ earlier library,
        os.load_library library = some m ∧
        (get_symbol_address_loop os self symbol libraries).calls =
          earlier ++ [LoaderCall.load library, LoaderCall.resolve m symbol]) := by
  induction libraries with
  | nil =>
    refine ⟨?_, ?_, ?_, ?_⟩
    · simp [get_symbol_address_loop, held_module, hu]
    · simp [get_symbol_address_loop, loaded_modules, freed_modules, hu]
    · intro _
      exact hu
    · intro m hm
      simp [get_symbol_address_loop, hu] at hm
  | cons library rest ih =>
    obtain ⟨i1, i2, i3, i4⟩ := ih
    cases hload : os.load_library library with
    | none =>
      have e : get_symbol_address_loop os self symbol (library :: rest) =
          ⟨(get_symbol_address_loop os self symbol rest).function,
            (get_symbol_address_loop os self symbol rest).self,
            LoaderCall.load library :: (get_symbol_address_loop os self symbol rest).calls⟩ := by
        simp only [get_symbol_address_loop, hload]
      rw [e]
      refine ⟨?_, ?_, i3, ?_⟩
      · simp only [held_module, hload]
        exact i1
      · simp only [loaded_modules, freed_modules, hload]
        exact i2
      · intro m hm
        obtain ⟨j1, earlier, lib, j2, j3⟩ := i4 m hm
        exact ⟨j1, LoaderCall.load library :: earlier, lib, j2, by rw [j3]; rfl⟩
    | some m0 =>
      cases hres : os.GetProcAddress m0 symbol with
      | some f0 =>
        have e : get_symbol_address_loop os self symbol (library :: rest) =
            ⟨some f0, { self with m_module := some m0 },
              [LoaderCall.load library, LoaderCall.resolve m0 symbol]⟩ := by
          simp only [get_symbol_address_loop, hload, hres]
        rw [e]
        refine ⟨?_, ?_, ?_, ?_⟩
        · simp [held_module, hload]
        · simp [loaded_modules, freed_modules, hload]
        · intro h
          simp at h
        · intro m hm
          simp only [Option.some.injEq] at hm
          refine ⟨by simp, [], library, ?_, ?_⟩
          · rw [← hm]
            exact hload
          · rw [← hm]
            rfl
      | none =>
        have e : get_symbol_address_loop os self symbol (library :: rest) =
            ⟨(get_symbol_address_loop os self symbol rest).function,
              (get_symbol_address_loop os self symbol rest).self,
              LoaderCall.load library :: LoaderCall.resolve m0 symbol :: LoaderCall.free m0 ::
                (get_symbol_address_loop os self symbol rest).calls⟩ := by
          simp only [get_symbol_address_loop, hload, hres]
        rw [e]
        refine ⟨?_, ?_, i3, ?_⟩
        · simp only [held_module, hload, if_true]
          exact i1
        · simp only [loaded_modules, freed_modules, hload, List.cons_append]
          rw [i2]
        · intro m hm
          obtain ⟨j1, earlier, lib, j2, j3⟩ := i4 m hm
          exact ⟨j1, LoaderCall.load library :: LoaderCall.resolve m0 symbol ::
            LoaderCall.free m0 :: earlier, lib, j2, by rw [j3]; rfl⟩

/-- C18: in one `get_symbol_address` call on an unbound handle, the platform calls are in
order (a library is loaded only while no loaded module is unreleased, `FreeLibrary` is called
only on the module just loaded) and the module still held at the end is the one stored in
`m_module`; the modules loaded are exactly the modules freed, each once and in the same order,
followed by the module stored in `m_module` if there is one; when a module is stored, the
call returns a pointer and its last platform calls are the load of that module and the
resolution of the symbol in it; when the call returns absent nothing is stored and the number
of releases equals the number of successful loads. -/
theorem loader_module_balance (os : WinLoader) (self : dynamic_module_win32_impl)
    (symbol : String) (hu : self.m_module = none) :
    held_module os none (get_symbol_address os self symbol).calls =
      some (get_symbol_address os self symbol).self.m_module ∧
    loaded_modules os (get_symbol_address os self symbol).calls =
      freed_modules (get_symbol_address os self symbol).calls ++
        (get_symbol_address os self symbol).self.m_module.toList ∧
    (∀ m, (get_symbol_address os self symbol).self.m_module = some m →
      (get_symbol_address os self symbol).function ≠ none ∧
      ∃ earlier library,
        os.load_library library = some m ∧
        (get_symbol_address os self symbol).calls =
          earlier ++ [LoaderCall.load library, LoaderCall.resolve m symbol]) ∧
    ((get_symbol_address os self symbol).function = none →
      (get_symbol_address os self symbol).self.m_module = none ∧
      (freed_modules (get_symbol_address os self symbol).calls).length =
        (loaded_modules os (get_symbol_address os self symbol).calls).length) := by
  have e : get_symbol_address os self symbol =
      get_symbol_address_loop os self symbol self.m_libraries := by
    unfold get_symbol_address
    rw [hu]
  rw [e]
  obtain ⟨h1, h2, h3, h4⟩ := get_symbol_address_loop_balance os self symbol hu self.m_libraries
  refine ⟨h1, h2, h4, ?_⟩
  intro hn
  have hm := h3 hn
  refine ⟨hm, ?_⟩
  rw [h2, hm]
  simp

/-- Witness for C18: the candidates `real_b.lib`, `nonexistent.lib`, `real_a.lib` and the
symbol `only_a`: module 2 is loaded and freed, then module 1 is loaded and kept. -/
theorem loader_module_balance_witness :
    (⟨["real_b.lib", "nonexistent.lib", "real_a.lib"], none⟩ :
      dynamic_module_win32_impl).m_module = none ∧
    (get_symbol_address sampleLoader ⟨["real_b.lib", "nonexistent.lib", "real_a.lib"], none⟩
      "only_a").calls =
      [LoaderCall.load "real_b.lib", LoaderCall.resolve 2 "only_a", LoaderCall.free 2,
        LoaderCall.load "nonexistent.lib", LoaderCall.load "real_a.lib",
        LoaderCall.resolve 1 "only_a"] ∧
    loaded_modules sampleLoader
        (get_symbol_address sampleLoader
          ⟨["real_b.lib", "nonexistent.lib", "real_a.lib"], none⟩ "only_a").calls =
      freed_modules
          (get_symbol_address sampleLoader
            ⟨["real_b.lib", "nonexistent.lib", "real_a.lib"], none⟩ "only_a").calls ++
        (get_symbol_address sampleLoader
          ⟨["real_b.lib", "nonexistent.lib", "real_a.lib"], none⟩
          "only_a").self.m_module.toList :=
  ⟨rfl, by decide,
    (loader_module_balance sampleLoader
      ⟨["real_b.lib", "nonexistent.lib", "real_a.lib"], none⟩ "only_a" rfl).2.1⟩

/-! ## Placement of the payload, sizing and containment -/

/-- The payload pointer of a raw block whose first `sizeof(size_t) + MAX_ALIGNMENT` bytes lie in
the address space: the only multiple of `MAX_ALIGNMENT` after `block + sizeof(size_t)` and not
after `block + sizeof(size_t) + MAX_ALIGNMENT`. -/
theorem payload_ptr_placement (t : Target) (hw : t.WellFormed) (block : Nat)
    (hb : block + t.sizeof_size_t + t.MAX_ALIGNMENT < t.wordMod) :
    payload_ptr t block % t.MAX_ALIGNMENT = 0 ∧
    block + t.sizeof_size_t < payload_ptr t block ∧
    payload_ptr t block ≤ block + t.sizeof_size_t + t.MAX_ALIGNMENT ∧
    (∀ a, a % t.MAX_ALIGNMENT = 0 → block + t.sizeof_size_t < a → payload_ptr t block ≤ a) ∧
    (∀ a, a % t.MAX_ALIGNMENT = 0 → a ≤ block + t.sizeof_size_t + t.MAX_ALIGNMENT →
      a ≤ payload_ptr t block) := by
  have hal := payload_ptr_aligned t hw block
  obtain ⟨w1, w2, _⟩ := write_header_spec t hw zeroMem block 0 hb
  generalize payload_ptr t block = p at hal w1 w2 ⊢
  obtain ⟨_, ha⟩ := hw
  refine ⟨hal, w1, w2, ?_, ?_⟩
  · intro a h1 h2
    rcases ha with ha | ha | ha <;> rw [ha] at hal h1 w2 <;> omega
  · intro a h1 h2
    rcases ha with ha | ha | ha <;> rw [ha] at hal h1 w2 h2 <;> omega

/-- C14, as stated, fails on the 64-bit build for the heap block 0x20000: the payload pointer
is 0x20010, which lies before `block + sizeof(size_t) + MAX_ALIGNMENT` (0x20018); the first
aligned address at or after 0x20018 is 0x20020. -/
theorem payload_placement_counterexample :
    (osd_malloc x64 (fixedOS 0x20000 0x10000) zeroMem 17).1 = some 0x20010 ∧
    heap_block_of x64 (fixedOS 0x20000 0x10000) 17 = 0x20000 ∧
    payload_ptr x64 0x20000 = 0x20010 ∧
    ¬ (0x20000 + x64.sizeof_size_t + x64.MAX_ALIGNMENT ≤ payload_ptr x64 0x20000) ∧
    0x20020 % x64.MAX_ALIGNMENT = 0 ∧
    0x20000 + x64.sizeof_size_t + x64.MAX_ALIGNMENT ≤ 0x20020 ∧
    payload_ptr x64 0x20000 ≠ 0x20020 := by
  decide

/-- C14, amended: for a raw block whose first `sizeof(size_t) + MAX_ALIGNMENT` bytes lie in the
address space, the payload pointer returned by `osd_malloc` and by `osd_malloc_array` is
aligned to `MAX_ALIGNMENT`, is the first (smallest) aligned address strictly after
`block + sizeof(size_t)`, and is the last (greatest) aligned address at or before
`block + sizeof(size_t) + MAX_ALIGNMENT`. -/
theorem payload_placement (t : Target) (hw : t.WellFormed) (os : WinMem) (mem : Mem) (n : Nat) :
    (∀ p, (osd_malloc t os mem n).1 = some p →
      heap_block_of t os n + t.sizeof_size_t + t.MAX_ALIGNMENT < t.wordMod →
      p % t.MAX_ALIGNMENT = 0 ∧
      heap_block_of t os n + t.sizeof_size_t < p ∧
      p ≤ heap_block_of t os n + t.sizeof_size_t + t.MAX_ALIGNMENT ∧
      (∀ a, a % t.MAX_ALIGNMENT = 0 → heap_block_of t os n + t.sizeof_size_t < a → p ≤ a) ∧
      (∀ a, a % t.MAX_ALIGNMENT = 0 →
        a ≤ heap_block_of t os n + t.sizeof_size_t + t.MAX_ALIGNMENT → a ≤ p)) ∧
    (∀ p, (osd_malloc_array t os mem n).1 = some p →
      array_block_of t os n + t.sizeof_size_t + t.MAX_ALIGNMENT < t.wordMod →
      p % t.MAX_ALIGNMENT = 0 ∧
      array_block_of t os n + t.sizeof_size_t < p ∧
      p ≤ array_block_of t os n + t.sizeof_size_t + t.MAX_ALIGNMENT ∧
      (∀ a, a % t.MAX_ALIGNMENT = 0 → array_block_of t os n + t.sizeof_size_t < a → p ≤ a) ∧
      (∀ a, a % t.MAX_ALIGNMENT = 0 →
        a ≤ array_block_of t os n + t.sizeof_size_t + t.MAX_ALIGNMENT → a ≤ p)) := by
  constructor
  · intro p hp hb
    obtain ⟨_, hpe, _⟩ := osd_malloc_some t os mem n p hp
    rw [hpe]
    exact payload_ptr_placement t hw _ hb
  · intro p hp hb
    obtain ⟨_, _, hpe, _⟩ := osd_malloc_array_some t os mem n p hp
    rw [hpe]
    exact payload_ptr_placement t hw _ hb

/-- Witness for the amended C14: the 64-bit build, a request of 17 bytes, heap block at
0x20000 with payload 0x20010, guarded block at 0x11fd6 with payload 0x11fe0. -/
theorem payload_placement_witness :
    x64.WellFormed ∧
    (osd_malloc x64 (fixedOS 0x20000 0x10000) zeroMem 17).1 = some 0x20010 ∧
    (osd_malloc_array x64 (fixedOS 0x20000 0x10000) zeroMem 17).1 = some 0x11fe0 ∧
    (0x20010 % x64.MAX_ALIGNMENT = 0 ∧
      heap_block_of x64 (fixedOS 0x20000 0x10000) 17 + x64.sizeof_size_t < 0x20010 ∧
      0x20010 ≤ heap_block_of x64 (fixedOS 0x20000 0x10000) 17 + x64.sizeof_size_t +
        x64.MAX_ALIGNMENT ∧
      (∀ a, a % x64.MAX_ALIGNMENT = 0 →
        heap_block_of x64 (fixedOS 0x20000 0x10000) 17 + x64.sizeof_size_t < a → 0x20010 ≤ a) ∧
      (∀ a, a % x64.MAX_ALIGNMENT = 0 →
        a ≤ heap_block_of x64 (fixedOS 0x20000 0x10000) 17 + x64.sizeof_size_t +
          x64.MAX_ALIGNMENT → a ≤ 0x20010)) ∧
    (0x11fe0 % x64.MAX_ALIGNMENT = 0 ∧
      array_block_of x64 (fixedOS 0x20000 0x10000) 17 + x64.sizeof_size_t < 0x11fe0 ∧
      0x11fe0 ≤ array_block_of x64 (fixedOS 0x20000 0x10000) 17 + x64.sizeof_size_t +
        x64.MAX_ALIGNMENT ∧
      (∀ a, a % x64.MAX_ALIGNMENT = 0 →
        array_block_of x64 (fixedOS 0x20000 0x10000) 17 + x64.sizeof_size_t < a →
        0x11fe0 ≤ a) ∧
      (∀ a, a % x64.MAX_ALIGNMENT = 0 →
        a ≤ array_block_of x64 (fixedOS 0x20000 0x10000) 17 + x64.sizeof_size_t +
          x64.MAX_ALIGNMENT → a ≤ 0x11fe0)) :=
  ⟨by decide, by decide, by decide,
    (payload_placement x64 (by decide) (fixedOS 0x20000 0x10000) zeroMem 17).1 0x20010
      (by decide) (by decide),
    (payload_placement x64 (by decide) (fixedOS 0x20000 0x10000) zeroMem 17).2 0x11fe0
      (by decide) (by decide)⟩

/-- C15 at the failing input: on the 64-bit build a request of 4070 bytes has the padded size
4096, which is itself a multiple of `PAGE_SIZE`, so the padded size rounded up to a page
boundary is 4096 and the reservation would be 4096 + 2 * 4096; `rounded_size` is 8192 and the
size reserved is 16384. -/
theorem rounded_size_4070_one_page_too_many :
    padded_size x64 4070 = 4096 ∧
    padded_size x64 4070 % PAGE_SIZE = 0 ∧
    rounded_size x64 (padded_size x64 4070) = 8192 ∧
    rounded_size x64 (padded_size x64 4070) ≠ padded_size x64 4070 ∧
    reserve_size x64 4070 = 16384 ∧
    reserve_size x64 4070 ≠ padded_size x64 4070 + 2 * PAGE_SIZE := by
  decide

/-- What the source computes for the sizes of the guarded allocation, when nothing overflows:
with `padded` the request plus `MAX_ALIGNMENT + sizeof(size_t) + 2` with its low bit cleared,
`rounded_size` is the smallest multiple of `PAGE_SIZE` that is at least
`padded + sizeof(void *)`; the size reserved is `rounded_size + 2 * PAGE_SIZE` and the size
committed is `rounded_size`. -/
theorem guarded_sizing (t : Target) (hw : t.WellFormed) (os : WinMem) (n : Nat)
    (hn : n + t.MAX_ALIGNMENT + t.sizeof_size_t + 2 + t.sizeof_ptr + 3 * PAGE_SIZE ≤
      t.wordMod) :
    padded_size t n =
      n + t.MAX_ALIGNMENT + t.sizeof_size_t + 2 - (n + t.MAX_ALIGNMENT + t.sizeof_size_t + 2) % 2 ∧
    rounded_size t (padded_size t n) % PAGE_SIZE = 0 ∧
    padded_size t n + t.sizeof_ptr ≤ rounded_size t (padded_size t n) ∧
    (∀ m, m % PAGE_SIZE = 0 → padded_size t n + t.sizeof_ptr ≤ m →
      rounded_size t (padded_size t n) ≤ m) ∧
    reserve_size t n = rounded_size t (padded_size t n) + 2 * PAGE_SIZE ∧
    reserve_base t os n = os.VirtualAlloc 0 (reserve_size t n) AllocType.MEM_RESERVE ∧
    commit_base t os n =
      os.VirtualAlloc (addW t (reserve_base t os n) PAGE_SIZE)
        (rounded_size t (padded_size t n)) AllocType.MEM_COMMIT := by
  have hps := padded_size_eq t hw n
  have hA : 8 ≤ t.MAX_ALIGNMENT ∧ t.MAX_ALIGNMENT ≤ 32 := by
    obtain ⟨_, ha⟩ := hw
    omega
  have key : padded_size t n =
        n + t.MAX_ALIGNMENT + t.sizeof_size_t + 2 -
          (n + t.MAX_ALIGNMENT + t.sizeof_size_t + 2) % 2 ∧
      rounded_size t (padded_size t n) % PAGE_SIZE = 0 ∧
      padded_size t n + t.sizeof_ptr ≤ rounded_size t (padded_size t n) ∧
      rounded_size t (padded_size t n) < padded_size t n + t.sizeof_ptr + PAGE_SIZE ∧
      addW t (rounded_size t (padded_size t n)) (2 * PAGE_SIZE) =
        rounded_size t (padded_size t n) + 2 * PAGE_SIZE := by
    generalize padded_size t n = size at hps ⊢
    unfold rounded_size
    unfold addW at hps ⊢
    unfold PAGE_SIZE at hn ⊢
    rcases WellFormed.word_cases t hw with ⟨hW, hS, hP⟩ | ⟨hW, hS, hP⟩ <;>
      rw [hW, hS] at hps <;> rw [hW, hS, hP] at hn <;> rw [hW, hS, hP] <;> omega
  obtain ⟨k1, k2, k3, k4, k5⟩ := key
  refine ⟨k1, k2, k3, ?_, k5, rfl, rfl⟩
  intro m h1 h2
  unfold PAGE_SIZE at k2 k4 h1
  omega

/-- The sizes of the guarded allocation on the 64-bit build for a request of 4070 bytes. -/
theorem guarded_sizing_witness :
    x64.WellFormed ∧
    4070 + x64.MAX_ALIGNMENT + x64.sizeof_size_t + 2 + x64.sizeof_ptr + 3 * PAGE_SIZE ≤
      x64.wordMod ∧
    (padded_size x64 4070 =
        4070 + x64.MAX_ALIGNMENT + x64.sizeof_size_t + 2 -
          (4070 + x64.MAX_ALIGNMENT + x64.sizeof_size_t + 2) % 2 ∧
      rounded_size x64 (padded_size x64 4070) % PAGE_SIZE = 0 ∧
      padded_size x64 4070 + x64.sizeof_ptr ≤ rounded_size x64 (padded_size x64 4070) ∧
      (∀ m, m % PAGE_SIZE = 0 → padded_size x64 4070 + x64.sizeof_ptr ≤ m →
        rounded_size x64 (padded_size x64 4070) ≤ m) ∧
      reserve_size x64 4070 = rounded_size x64 (padded_size x64 4070) + 2 * PAGE_SIZE ∧
      reserve_base x64 (fixedOS 0 0x10000) 4070 =
        (fixedOS 0 0x10000).VirtualAlloc 0 (reserve_size x64 4070) AllocType.MEM_RESERVE ∧
      commit_base x64 (fixedOS 0 0x10000) 4070 =
        (fixedOS 0 0x10000).VirtualAlloc
          (addW x64 (reserve_base x64 (fixedOS 0 0x10000) 4070) PAGE_SIZE)
          (rounded_size x64 (padded_size x64 4070)) AllocType.MEM_COMMIT) :=
  ⟨by decide, by decide, guarded_sizing x64 (by decide) (fixedOS 0 0x10000) 4070 (by decide)⟩

/-- The place of the raw block of a guarded allocation that returns: when
`n + MAX_ALIGNMENT + sizeof(size_t) + 2` does not overflow, `VirtualAlloc` behaves as
documented and the store of the size word does not fault, the page rounding has not
overflowed either and the raw block lies inside the committed region, which lies in the
address space. -/
theorem array_block_committed (t : Target) (hw : t.WellFormed) (os : WinMem) (n : Nat)
    (hC : commit_base t os n ≠ 0)
    (hna : ¬ no_access t os n (array_block_of t os n))
    (hct : VirtualAllocContract t os n)
    (hn : n + t.MAX_ALIGNMENT + t.sizeof_size_t + 2 < t.wordMod) :
    n + t.MAX_ALIGNMENT + t.sizeof_size_t + 1 ≤ padded_size t n ∧
    commit_base t os n ≤ array_block_of t os n ∧
    array_block_of t os n + padded_size t n ≤
      commit_base t os n + rounded_size t (padded_size t n) ∧
    commit_base t os n + rounded_size t (padded_size t n) ≤ t.wordMod := by
  obtain ⟨c1, c2, c3⟩ := hct
  obtain ⟨c3a, c3b⟩ := c3 hC
  have hps := padded_size_eq t hw n
  have hA : 8 ≤ t.MAX_ALIGNMENT ∧ t.MAX_ALIGNMENT ≤ 32 := by
    obtain ⟨_, ha⟩ := hw
    omega
  unfold no_access at hna
  unfold array_block_of array_block at hna ⊢
  simp only [GUARD_ALIGN_START, Bool.false_eq_true, if_false] at hna ⊢
  unfold reserve_size at c1 c3b hna
  generalize commit_base t os n = c at *
  generalize reserve_base t os n = R at *
  generalize padded_size t n = size at *
  unfold rounded_size at *
  unfold addW at hps
  unfold subW addW at *
  unfold PAGE_SIZE at *
  rcases WellFormed.word_cases t hw with ⟨hW, hS, hP⟩ | ⟨hW, hS, hP⟩ <;>
    rw [hW, hS] at hps <;> rw [hW, hS] at hn <;> rw [hW, hP] at c1 c2 c3b hna <;>
    rw [hW, hS, hP] <;> omega

/-- C19: when `n + MAX_ALIGNMENT + sizeof(size_t) + 2` does not overflow `size_t`, with raw block
`[block, block + padded)` and returned pointer `p`: the payload `[p, p + n)` lies inside the raw
block and the back-offset byte at `p - 1` lies at or after `block + sizeof(size_t)`, so neither
overlaps the size word. This holds on the heap path for a raw block in the address space, and
on the guarded path, where in addition the raw block lies inside the committed region, for a
call that returns: `VirtualAlloc` behaves as documented and the header stores do not fault. -/
theorem payload_containment (t : Target) (hw : t.WellFormed) (os : WinMem) (mem : Mem)
    (n : Nat) :
    (∀ p, (osd_malloc t os mem n).1 = some p →
      n + t.MAX_ALIGNMENT + t.sizeof_size_t + 2 < t.wordMod →
      heap_block_of t os n + padded_size t n ≤ t.wordMod →
      heap_block_of t os n + t.sizeof_size_t ≤ p - 1 ∧ p - 1 < p ∧
      p + n ≤ heap_block_of t os n + padded_size t n) ∧
    (∀ p, (osd_malloc_array t os mem n).1 = some p →
      ¬ header_store_faults t os n →
      VirtualAllocContract t os n →
      n + t.MAX_ALIGNMENT + t.sizeof_size_t + 2 < t.wordMod →
      commit_base t os n ≤ array_block_of t os n ∧
      array_block_of t os n + padded_size t n ≤
        commit_base t os n + rounded_size t (padded_size t n) ∧
      array_block_of t os n + t.sizeof_size_t ≤ p - 1 ∧ p - 1 < p ∧
      p + n ≤ array_block_of t os n + padded_size t n) := by
  constructor
  · intro p hp hn hblk
    obtain ⟨_, hpe, _⟩ := osd_malloc_some t os mem n p hp
    have hps := padded_size_eq t hw n
    have hadd : addW t n (t.MAX_ALIGNMENT + t.sizeof_size_t + 2) =
        n + t.MAX_ALIGNMENT + t.sizeof_size_t + 2 := by
      unfold addW
      rw [← Nat.add_assoc, ← Nat.add_assoc]
      exact Nat.mod_eq_of_lt hn
    rw [hadd] at hps
    have hb : heap_block_of t os n + t.sizeof_size_t + t.MAX_ALIGNMENT < t.wordMod := by omega
    obtain ⟨w1, w2, _⟩ := write_header_spec t hw mem (heap_block_of t os n) 0 hb
    rw [← hpe] at w1 w2
    refine ⟨?_, ?_, ?_⟩ <;> omega
  · intro p hp hnf hct hn
    obtain ⟨_, hC, hpe, _⟩ := osd_malloc_array_some t os mem n p hp
    have hS : 0 < t.sizeof_size_t := by
      rcases WellFormed.word_cases t hw with ⟨_, h, _⟩ | ⟨_, h, _⟩ <;> omega
    have hna : ¬ no_access t os n (array_block_of t os n) :=
      fun h => hnf (Or.inl ⟨0, hS, h⟩)
    obtain ⟨g1, g2, g3, g4⟩ := array_block_committed t hw os n hC hna hct hn
    have hb : array_block_of t os n + t.sizeof_size_t + t.MAX_ALIGNMENT < t.wordMod := by omega
    obtain ⟨w1, w2, _⟩ := write_header_spec t hw mem (array_block_of t os n) 0 hb
    rw [← hpe] at w1 w2
    refine ⟨?_, ?_, ?_, ?_, ?_⟩ <;> omega

/-- Witness for C19: the 64-bit build, a request of 17 bytes, heap block at 0x20000; the
reservation `[0x10000, 0x13000)` with the committed region `[0x11000, 0x12000)`. -/
theorem payload_containment_witness :
    x64.WellFormed ∧
    (osd_malloc x64 (fixedOS 0x20000 0x10000) zeroMem 17).1 = some 0x20010 ∧
    (osd_malloc_array x64 (fixedOS 0x20000 0x10000) zeroMem 17).1 = some 0x11fe0 ∧
    ¬ header_store_faults x64 (fixedOS 0x20000 0x10000) 17 ∧
    VirtualAllocContract x64 (fixedOS 0x20000 0x10000) 17 ∧
    17 + x64.MAX_ALIGNMENT + x64.sizeof_size_t + 2 < x64.wordMod ∧
    (heap_block_of x64 (fixedOS 0x20000 0x10000) 17 + x64.sizeof_size_t ≤ 0x20010 - 1 ∧
      0x20010 - 1 < 0x20010 ∧
      0x20010 + 17 ≤ heap_block_of x64 (fixedOS 0x20000 0x10000) 17 + padded_size x64 17) ∧
    (commit_base x64 (fixedOS 0x20000 0x10000) 17 ≤
        array_block_of x64 (fixedOS 0x20000 0x10000) 17 ∧
      array_block_of x64 (fixedOS 0x20000 0x10000) 17 + padded_size x64 17 ≤
        commit_base x64 (fixedOS 0x20000 0x10000) 17 + rounded_size x64 (padded_size x64 17) ∧
      array_block_of x64 (fixedOS 0x20000 0x10000) 17 + x64.sizeof_size_t ≤ 0x11fe0 - 1 ∧
      0x11fe0 - 1 < 0x11fe0 ∧
      0x11fe0 + 17 ≤ array_block_of x64 (fixedOS 0x20000 0x10000) 17 + padded_size x64 17) :=
  ⟨by decide, by decide, by decide, by decide, by decide, by decide,
    (payload_containment x64 (by decide) (fixedOS 0x20000 0x10000) zeroMem 17).1 0x20010
      (by decide) (by decide) (by decide),
    (payload_containment x64 (by decide) (fixedOS 0x20000 0x10000) zeroMem 17).2 0x11fe0
      (by decide) (by decide) (by decide) (by decide)⟩

/-- The overflow of the page rounding on the 64-bit build for a request of `2 ^ 64 - 30` bytes:
`rounded_size` wraps to 4096 and the raw block is computed at 0x12004, in the trailing guard
page `[0x12000, 0x13000)`, so the store of the size word faults and the call does not
return. -/
theorem rounding_overflow_faults :
    18446744073709551586 + x64.MAX_ALIGNMENT + x64.sizeof_size_t + 2 < x64.wordMod ∧
    VirtualAllocContract x64 (fixedOS 0 0x10000) 18446744073709551586 ∧
    rounded_size x64 (padded_size x64 18446744073709551586) = 4096 ∧
    array_block_of x64 (fixedOS 0 0x10000) 18446744073709551586 = 0x12004 ∧
    header_store_faults x64 (fixedOS 0 0x10000) 18446744073709551586 := by
  decide

/-! ## The PE export lookup -/

theorem strcmpChars_eq_zero_iff (a b : List Char) : strcmpChars a b = 0 ↔ a = b := by
  induction a generalizing b with
  | nil =>
    cases b with
    | nil => simp [strcmpChars]
    | cons y ys => simp [strcmpChars]
  | cons x xs ih =>
    cases b with
    | nil => simp [strcmpChars]
    | cons y ys =>
      simp only [strcmpChars]
      by_cases h : x = y
      · rw [if_pos h, ih ys, h]
        simp
      · rw [if_neg h]
        constructor
        · intro h0
          exfalso
          apply h
          have hn : x.toNat = y.toNat := by omega
          rw [← Char.ofNat_toNat x, ← Char.ofNat_toNat y, hn]
        · intro h0
          exfalso
          apply h
          exact (List.cons.inj h0).1

theorem strcmp_eq_zero_iff (a b : String) : strcmp a b = 0 ↔ a = b := by
  unfold strcmp
  rw [strcmpChars_eq_zero_iff, String.ext_iff]

theorem PeNameScan_step (t : Target) (mem : ImageMem) (Base : Nat)
    (Exp : IMAGE_EXPORT_DIRECTORY) (Name count i : Nat) :
    PeNameScan t mem Base Exp Name (count + 1) i =
      if name_matches t mem Base Exp Name i ∧
          export_address t mem Base Exp (export_ordinal t mem Base Exp i) ≠ 0 then
        export_address t mem Base Exp (export_ordinal t mem Base Exp i)
      else PeNameScan t mem Base Exp Name count (i + 1) := by
  simp only [PeNameScan, name_matches, strcmp_eq_zero_iff]
  by_cases h1 : export_name t mem Base Exp i ≠ 0 ∧
      mem.cstring (export_name t mem Base Exp i) = mem.cstring Name
  · rw [if_pos h1]
    by_cases h2 : export_address t mem Base Exp (export_ordinal t mem Base Exp i) = 0
    · rw [if_pos h2, if_neg (by simp [h2])]
    · rw [if_neg h2, if_pos ⟨h1, h2⟩]
  · rw [if_neg h1, if_neg (fun h => h1 h.1)]

/-- The name loop finds nothing when no name in its range matches. -/
theorem PeNameScan_none (t : Target) (mem : ImageMem) (Base : Nat)
    (Exp : IMAGE_EXPORT_DIRECTORY) (Name count i : Nat)
    (hno : ∀ j, i ≤ j → j < i + count → ¬ name_matches t mem Base Exp Name j) :
    PeNameScan t mem Base Exp Name count i = 0 := by
  induction count generalizing i with
  | zero => rfl
  | succ c ih =>
    rw [PeNameScan_step, if_neg (fun h => hno i (Nat.le_refl i) (by omega) h.1)]
    exact ih (i + 1) (fun j h1 h2 => hno j (by omega) (by omega))

/-- The name loop stops at the first matching name when its export address is not null. -/
theorem PeNameScan_first (t : Target) (mem : ImageMem) (Base : Nat)
    (Exp : IMAGE_EXPORT_DIRECTORY) (Name count i k : Nat)
    (hik : i ≤ k) (hk : k < i + count)
    (hm : name_matches t mem Base Exp Name k)
    (hno : ∀ j, i ≤ j → j < k → ¬ name_matches t mem Base Exp Name j)
    (hnz : export_address t mem Base Exp (export_ordinal t mem Base Exp k) ≠ 0) :
    PeNameScan t mem Base Exp Name count i =
      export_address t mem Base Exp (export_ordinal t mem Base Exp k) := by
  induction count generalizing i with
  | zero => omega
  | succ c ih =>
    rw [PeNameScan_step]
    by_cases hi : i = k
    · rw [hi, if_pos ⟨hm, hnz⟩]
    · rw [if_neg (fun h => hno i (Nat.le_refl i) (by omega) h.1)]
      exact ih (i + 1) (by omega) (by omega) (fun j h1 h2 => hno j (by omega) h2)

theorem PeGetProcAddressA_absent (t : Target) (mem : ImageMem) (Base Name : Nat)
    (h : PeExportDirectory t mem Base = 0 ∨
      (mem.export_directory (PeExportDirectory t mem Base)).NumberOfFunctions = 0) :
    PeGetProcAddressA t mem Base Name = none := by
  unfold PeGetProcAddressA
  simp only
  exact if_pos h

theorem PeGetProcAddressA_present (t : Target) (mem : ImageMem) (Base Name : Nat)
    (h1 : PeExportDirectory t mem Base ≠ 0)
    (h2 : (mem.export_directory (PeExportDirectory t mem Base)).NumberOfFunctions ≠ 0) :
    PeGetProcAddressA t mem Base Name =
      PeForwarderCheck t mem Base
        (PeLookup t mem Base (mem.export_directory (PeExportDirectory t mem Base)) Name) := by
  unfold PeGetProcAddressA
  simp only
  exact if_neg (fun h => h.elim h1 h2)

theorem PeExportDirectory_absent (t : Target) (mem : ImageMem) (Base : Nat)
    (h : (mem.nt_headers (ImageNtHeader t mem Base)).NumberOfRvaAndSizes = 0 ∨
      ((mem.nt_headers (ImageNtHeader t mem Base)).DataDirectory
        IMAGE_DIRECTORY_ENTRY_EXPORT).VirtualAddress = 0) :
    PeExportDirectory t mem Base = 0 := by
  unfold PeExportDirectory ImageDirectoryEntryToDataEx
  simp only
  by_cases h0 : ImageNtHeader t mem Base = 0
  · rw [if_pos h0]
  · rw [if_neg h0]
    by_cases h1 : IMAGE_DIRECTORY_ENTRY_EXPORT ≥
        (mem.nt_headers (ImageNtHeader t mem Base)).NumberOfRvaAndSizes
    · rw [if_pos h1]
    · rw [if_neg h1]
      rcases h with h | h
      · exfalso
        apply h1
        rw [h]
        exact Nat.zero_le _
      · rw [if_pos h]

theorem PeForwarderCheck_zero (t : Target) (mem : ImageMem) (Base : Nat) :
    PeForwarderCheck t mem Base 0 = none := by
  unfold PeForwarderCheck
  simp

/-- The forwarder check when nothing is truncated to 32 bits (image base, export directory and
resolved address below `2 ^ 32`): a non-null resolved address `a` is rejected exactly when
`start ≤ a ≤ start + size`, the end point `start + size` included. -/
theorem PeForwarderCheck_spec (t : Target) (mem : ImageMem) (Base Ret : Nat)
    (hnz : Ret ≠ 0) (hR : Ret < 4294967296)
    (hE : ((mem.nt_headers (ImageNtHeader t mem Base)).DataDirectory
        IMAGE_DIRECTORY_ENTRY_EXPORT).VirtualAddress + Base +
      ((mem.nt_headers (ImageNtHeader t mem Base)).DataDirectory
        IMAGE_DIRECTORY_ENTRY_EXPORT).Size < 4294967296) :
    PeForwarderCheck t mem Base Ret =
      if ((mem.nt_headers (ImageNtHeader t mem Base)).DataDirectory
            IMAGE_DIRECTORY_ENTRY_EXPORT).VirtualAddress + Base ≤ Ret ∧
          Ret ≤ ((mem.nt_headers (ImageNtHeader t mem Base)).DataDirectory
            IMAGE_DIRECTORY_ENTRY_EXPORT).VirtualAddress + Base +
            ((mem.nt_headers (ImageNtHeader t mem Base)).DataDirectory
              IMAGE_DIRECTORY_ENTRY_EXPORT).Size
      then none else some Ret := by
  unfold PeForwarderCheck DWORD
  simp only
  rw [if_pos hnz]
  generalize ((mem.nt_headers (ImageNtHeader t mem Base)).DataDirectory
    IMAGE_DIRECTORY_ENTRY_EXPORT).VirtualAddress = va at hE ⊢
  generalize ((mem.nt_headers (ImageNtHeader t mem Base)).DataDirectory
    IMAGE_DIRECTORY_ENTRY_EXPORT).Size = size at hE ⊢
  rw [Nat.mod_eq_of_lt hR, Nat.mod_eq_of_lt (show Base < 4294967296 by omega),
    Nat.mod_eq_of_lt (show va + Base < 4294967296 by omega),
    Nat.mod_eq_of_lt (show size < 4294967296 by omega),
    Nat.mod_eq_of_lt (show va + Base + size < 4294967296 by omega)]

/-- C12 at the failing input: in the sample image loaded at 0x400000 the export directory is
`[0x402000, 0x402100)` (`start` 0x402000, `size` 0x100) and the name `LoadLibraryA` resolves
to the address 0x402100, which is `start + size`, the first byte outside the export
directory; `PeGetProcAddressA` returns absent for it, on the 32-bit and the 64-bit build. -/
theorem forwarder_check_rejects_end_address :
    PeExportDirectory x86 sampleImage 0x400000 = 0x402000 ∧
    ((sampleImage.nt_headers (ImageNtHeader x86 sampleImage 0x400000)).DataDirectory
      IMAGE_DIRECTORY_ENTRY_EXPORT).Size = 0x100 ∧
    PeLookup x86 sampleImage 0x400000 (sampleImage.export_directory 0x402000) 0x500010 =
      0x402000 + 0x100 ∧
    PeForwarderCheck x86 sampleImage 0x400000 (0x402000 + 0x100) = none ∧
    PeGetProcAddressA x86 sampleImage 0x400000 0x500010 = none ∧
    PeLookup x64 sampleImage 0x400000 (sampleImage.export_directory 0x402000) 0x500010 =
      0x402000 + 0x100 ∧
    PeGetProcAddressA x64 sampleImage 0x400000 0x500010 = none ∧
    PeGetProcAddressA x64 sampleImage 0x400000 0x500010 ≠ some (0x402000 + 0x100) := by
  decide

theorem probe_MZ_iff (t : Target) (hw : t.WellFormed) (pages : PageMem) (a : Nat)
    (ha : a % PAGE_SIZE = 0) (hlt : a < t.wordMod) :
    probe_MZ t pages a = true ↔ starts_with_MZ pages a := by
  have h1 : addW t a 1 = a + 1 := by
    unfold addW
    apply Nat.mod_eq_of_lt
    unfold PAGE_SIZE at ha
    rcases WellFormed.word_cases t hw with ⟨hW, _, _⟩ | ⟨hW, _, _⟩ <;> rw [hW] at hlt ⊢ <;> omega
  unfold probe_MZ starts_with_MZ PageMem.read
  rw [h1]
  by_cases r0 : pages.readable (a / PAGE_SIZE) = true
  · by_cases r1 : pages.readable ((a + 1) / PAGE_SIZE) = true
    · by_cases c0 : pages.byte a % 256 = 77
      · simp [r0, r1, c0]
      · simp [r0, r1, c0]
    · by_cases c0 : pages.byte a % 256 = 77
      · simp [r0, r1, c0]
      · simp [r0, r1, c0]
  · simp [r0]

/-- The downward scan from a page-aligned address, with enough fuel: it returns, at the first
page-aligned address at or below the start where the probe succeeds, or at 0. -/
theorem find_load_exports_scan_spec (t : Target) (hw : t.WellFormed) (pages : PageMem)
    (k fuel Tmp : Nat) (hT : Tmp = PAGE_SIZE * k) (hlt : Tmp < t.wordMod) (hf : k + 1 ≤ fuel) :
    ∃ r, find_load_exports_scan t pages fuel Tmp = some r ∧
      r % PAGE_SIZE = 0 ∧ r ≤ Tmp ∧
      (r ≠ 0 → probe_MZ t pages r = true) ∧
      (∀ a, a % PAGE_SIZE = 0 → r < a → a ≤ Tmp → probe_MZ t pages a = false) := by
  induction k generalizing fuel Tmp with
  | zero =>
    obtain ⟨f, rfl⟩ : ∃ f, fuel = f + 1 := ⟨fuel - 1, by omega⟩
    have h0 : Tmp = 0 := by rw [hT]; rfl
    refine ⟨0, ?_, rfl, Nat.zero_le _, fun h => absurd rfl h, ?_⟩
    · simp [find_load_exports_scan, h0]
    · intro a _ h1 h2
      omega
  | succ k ih =>
    obtain ⟨f, rfl⟩ : ∃ f, fuel = f + 1 := ⟨fuel - 1, by omega⟩
    have hne : Tmp ≠ 0 := by
      rw [hT]
      unfold PAGE_SIZE
      omega
    by_cases hp : probe_MZ t pages Tmp = true
    · refine ⟨Tmp, ?_, ?_, Nat.le_refl _, fun _ => hp, ?_⟩
      · simp [find_load_exports_scan, hne, hp]
      · rw [hT]
        exact Nat.mul_mod_right _ _
      · intro a _ h1 h2
        omega
    · have hsub : subW t Tmp 0x1000 = PAGE_SIZE * k := by
        unfold subW
        unfold PAGE_SIZE at hT ⊢
        rcases WellFormed.word_cases t hw with ⟨hW, _, _⟩ | ⟨hW, _, _⟩ <;>
          rw [hW] at hlt ⊢ <;> omega
      have hlt2 : PAGE_SIZE * k < t.wordMod := by
        unfold PAGE_SIZE at hT ⊢
        omega
      obtain ⟨r, r1, r2, r3, r4, r5⟩ := ih f (PAGE_SIZE * k) rfl hlt2 (by omega)
      refine ⟨r, ?_, r2, ?_, r4, ?_⟩
      · simp only [find_load_exports_scan, if_neg hne, hsub]
        rw [if_neg hp]
        exact r1
      · unfold PAGE_SIZE at hT r3
        omega
      · intro a h1 h2 h3
        by_cases ha : a = Tmp
        · rw [ha]
          simpa using hp
        · apply r5 a h1 h2
          unfold PAGE_SIZE at hT h1 ⊢
          omega

/-- C17: for every start address and every memory state, the downward scan of
`find_load_exports` returns when given fuel for one test per page at or below the start. It
begins at the start with its low 12 bits cleared and stops at an address `r` that is
page-aligned and at most that address; when `r` is not 0 its first two bytes are readable and
equal to `M`, `Z`, and no page-aligned address above `r` and at most the cleared start has
that property (unreadable pages included, which are skipped); when `r` is 0 no non-zero
page-aligned address at or below the cleared start has it, and `find_load_exports` returns
leaving both cached pointers unchanged. -/
theorem bootstrap_scan (t : Target) (hw : t.WellFormed) (pages : PageMem) (mem : ImageMem)
    (start lit_LoadLibraryA lit_GetProcAddress : Nat) (g : LoaderExports) (fuel : Nat)
    (hs : start < t.wordMod) (hf : start / PAGE_SIZE + 1 ≤ fuel) :
    andW t (notW t 0xFFF) start = start - start % PAGE_SIZE ∧
    ∃ r, find_load_exports_scan t pages fuel (andW t (notW t 0xFFF) start) = some r ∧
      r % PAGE_SIZE = 0 ∧ r ≤ start - start % PAGE_SIZE ∧
      (r ≠ 0 → starts_with_MZ pages r) ∧
      (∀ a, a % PAGE_SIZE = 0 → r < a → a ≤ start - start % PAGE_SIZE →
        ¬ starts_with_MZ pages a) ∧
      (r = 0 →
        find_load_exports t pages mem start lit_LoadLibraryA lit_GetProcAddress g fuel =
          some g) ∧
      (r ≠ 0 →
        find_load_exports t pages mem start lit_LoadLibraryA lit_GetProcAddress g fuel =
          some ⟨(PeGetProcAddressA t mem r lit_LoadLibraryA).getD 0,
            (PeGetProcAddressA t mem r lit_GetProcAddress).getD 0⟩) := by
  have hmask : andW t (notW t 0xFFF) start = start - start % PAGE_SIZE := by
    have h := page_mask_eq t hw start hs
    unfold andW at h ⊢
    rw [Nat.land_comm]
    exact h
  refine ⟨hmask, ?_⟩
  have hdiv : start - start % PAGE_SIZE = PAGE_SIZE * (start / PAGE_SIZE) := by
    have := Nat.div_add_mod start PAGE_SIZE
    omega
  have hlt : start - start % PAGE_SIZE < t.wordMod := lt_of_le_of_lt (Nat.sub_le _ _) hs
  obtain ⟨r, r1, r2, r3, r4, r5⟩ :=
    find_load_exports_scan_spec t hw pages (start / PAGE_SIZE) fuel
      (start - start % PAGE_SIZE) hdiv hlt hf
  have hrlt : r < t.wordMod := lt_of_le_of_lt r3 hlt
  refine ⟨r, by rw [hmask]; exact r1, r2, r3, ?_, ?_, ?_, ?_⟩
  · intro hr
    exact (probe_MZ_iff t hw pages r r2 hrlt).1 (r4 hr)
  · intro a h1 h2 h3 hmz
    have hp := (probe_MZ_iff t hw pages a h1 (lt_of_le_of_lt h3 hlt)).2 hmz
    rw [r5 a h1 h2 h3] at hp
    simp at hp
  · intro hr
    unfold find_load_exports
    simp only
    rw [hmask, r1]
    simp [hr]
  · intro hr
    unfold find_load_exports
    simp only
    rw [hmask, r1]
    simp [hr]

/-- Witness for C17: the start address 0x401234 on the 64-bit build; the page at 0x401000 can
be read but does not start with `MZ`, the page at 0x400000 does, and the scan stops there. -/
theorem bootstrap_scan_witness :
    x64.WellFormed ∧ 0x401234 < x64.wordMod ∧ 0x401234 / PAGE_SIZE + 1 ≤ 0x402 ∧
    find_load_exports_scan x64 samplePages 0x402 (andW x64 (notW x64 0xFFF) 0x401234) =
      some 0x400000 ∧
    find_load_exports x64 samplePages sampleImage 0x401234 0x500010 0x500000 ⟨7, 8⟩ 0x402 =
      some ⟨0, 0x401000⟩ ∧
    andW x64 (notW x64 0xFFF) 0x401234 = 0x401234 - 0x401234 % PAGE_SIZE :=
  ⟨by decide, by decide, by decide, by decide, by decide,
    (bootstrap_scan x64 (by decide) samplePages sampleImage 0x401234 0x500010 0x500000 ⟨7, 8⟩
      0x402 (by decide) (by decide)).1⟩

end OsdLib
